import Mathlib

/-!
Verification of the ci-results repository: a shallow embedding of its
store schema (`database.go`), aggregation engine (`BuildStats` and
`findJobIDsByFilter`), HTTP read endpoint (`ServeBuilds` in `server.go`)
and ingestion persist stage (the third `spawn` block of
`(*IndexerOptions).Run` in `indexer/indexer.go`), together with theorems
about the frozen claims.

Conventions:
* SQL tables are lists of row structures, in rowid order; inner joins are
  `flatMap`/`filter` nests that mirror the generated `JOIN ... ON` chain.
* Machine integers (`int64` ids, millisecond timestamps, status values)
  are modelled as `Int`; none of the verified paths can overflow them.
* Go's fallible functions return `Except String` / `Option`.
-/

namespace CIResults

/-! ### testgrid.TestStatus constants (testgrid/testgrid.go) -/

def TestStatusNoResult : Int := 0
def TestStatusPass : Int := 1
def TestStatusPassWithSkips : Int := 3
def TestStatusRunning : Int := 4
def TestStatusFail : Int := 12
def TestStatusFlaky : Int := 13

/-! ### Table rows (schema created in `dbImpl.init`) -/

structure JobRow where
  id : Int
  name : String
  dashboard : String
  platform : String
  mod : String
  testtype : String
  deriving DecidableEq, Repr

structure TagRow where
  job_id : Int
  tag : String
  deriving DecidableEq, Repr

structure BuildRow where
  id : Int
  job_id : Int
  number : String
  timestamp : Int
  status : Int
  deriving DecidableEq, Repr

structure TestRow where
  id : Int
  name : String
  deriving DecidableEq, Repr

structure TestResultRow where
  build_id : Int
  test_id : Int
  status : Int
  deriving DecidableEq, Repr

/-- The five tables of the embedded sqlite store. -/
structure DB where
  jobs : List JobRow
  jobs_sippy_tags : List TagRow
  builds : List BuildRow
  tests : List TestRow
  test_results : List TestResultRow
  deriving DecidableEq, Repr

/-! ### Filter resolution (`findJobIDsByFilter`, database.go)

The Go code splits the filter on spaces, skips empty terms, checks each
term against the regexp `^[a-z0-9.-]+$`, and turns a `-`-prefixed term
into a `LEFT JOIN ... WHERE jstN.job_id IS NULL` anti-join and a bare
term into an inner `JOIN` against `jobs_sippy_tags`.  The emitted query
is `SELECT j.id FROM jobs j <joins> <conds>`: per job, an inner join on
a term contributes one output row per matching tag row, and an anti-join
contributes one row when no tag row matches (and none otherwise). -/

/-- `strings.Split` with the single-character separators used by this
code (" " and ","): splits at every occurrence, keeping empty pieces;
an empty input yields `[""]`. -/
def splitGoAux (sep : Char) : List Char → List Char → List String
  | [], acc => [String.mk acc.reverse]
  | c :: rest, acc =>
    if c == sep then String.mk acc.reverse :: splitGoAux sep rest []
    else splitGoAux sep rest (c :: acc)

def splitGo (sep : Char) (s : String) : List String :=
  splitGoAux sep s.data []

instance {ε α : Type} [DecidableEq ε] [DecidableEq α] : DecidableEq (Except ε α) := fun a b =>
  match a, b with
  | .ok x, .ok y =>
    if h : x = y then .isTrue (by rw [h]) else .isFalse (by intro hc; cases hc; exact h rfl)
  | .error x, .error y =>
    if h : x = y then .isTrue (by rw [h]) else .isFalse (by intro hc; cases hc; exact h rfl)
  | .ok _, .error _ => .isFalse (by intro hc; cases hc)
  | .error _, .ok _ => .isFalse (by intro hc; cases hc)

/-- A character accepted by the `^[a-z0-9.-]+$` term regexp. -/
def validTermChar (c : Char) : Bool :=
  (('a' ≤ c) && (c ≤ 'z')) || (('0' ≤ c) && (c ≤ '9')) || c == '.' || c == '-'

def validTerm (t : String) : Bool :=
  (!(t == "")) && t.data.all validTermChar

inductive FilterTerm where
  | inc (tag : String)
  | exc (tag : String)
  deriving DecidableEq, Repr

/-- `term[0] == '-'` selects the anti-join branch on `term[1:]`. -/
def parseTerm (t : String) : FilterTerm :=
  match t.data with
  | '-' :: rest => .exc (String.mk rest)
  | _ => .inc t

/-- Non-empty space-separated terms of the filter, validated against the
term regexp; the first invalid term aborts with an error, as in Go. -/
def parseTerms (ts : List String) : Except String (List FilterTerm) :=
  match ts with
  | [] => .ok []
  | t :: rest =>
    if t == "" then parseTerms rest
    else if validTerm t then do
      let others ← parseTerms rest
      .ok (parseTerm t :: others)
    else .error ("invalid filter term: " ++ t)

/-- Number of rows the term's join contributes for job `jid`:
an inner join multiplies by the number of matching tag rows, the
anti-join keeps exactly the jobs with no matching tag row. -/
def termJoinCount (db : DB) (jid : Int) : FilterTerm → Nat
  | .inc tag => (db.jobs_sippy_tags.filter fun g => g.job_id == jid && g.tag == tag).length
  | .exc tag => if db.jobs_sippy_tags.any fun g => g.job_id == jid && g.tag == tag then 0 else 1

/-- `findJobIDsByFilter` (database.go): job ids produced by
`SELECT j.id FROM jobs j <joins> <conds>`, with join multiplicities. -/
def findJobIDsByFilter (db : DB) (filter : String) : Except String (List Int) := do
  let terms ← parseTerms (splitGo ' ' filter)
  .ok (db.jobs.flatMap fun j =>
    List.replicate (terms.foldl (fun n t => n * termJoinCount db j.id t) 1) j.id)

/-- Declarative reading of one filter term, as the spec words it:
a bare token requires the tag to be present, a `-`-prefixed token
requires it to be absent. -/
def termHolds (db : DB) (jid : Int) : FilterTerm → Bool
  | .inc tag => db.jobs_sippy_tags.any fun g => g.job_id == jid && g.tag == tag
  | .exc tag => !(db.jobs_sippy_tags.any fun g => g.job_id == jid && g.tag == tag)

/-! ### Period parsing and trailing windows (`BuildStats`, database.go)

`strconv.ParseInt(per, 10, 0)` accepts an optional sign followed by
decimal digits, within the 64-bit range.  The period loop keeps a
running `days` total; a period seen while `days == 0` produces the
unbounded predicate `SUM(? <= b.timestamp)`, any other period produces
`SUM(? <= b.timestamp AND b.timestamp < ?)`, and after the loop the
query is restricted by `b.timestamp >= (now - 86400*days)*1000`.
All of this arithmetic is Go `int64` arithmetic, which wraps around on
overflow; each operation is therefore wrapped in `wrap64`. -/

/-- Go's `int64` result of an arithmetic operation: the argument
reduced into `[-2^63, 2^63)` modulo `2^64` (two's-complement
wrap-around). -/
def wrap64 (x : Int) : Int := (x + 2 ^ 63) % 2 ^ 64 - 2 ^ 63

def parseDigitsGo (orig : String) (sign : Int) (digits : List Char) : Except String Int :=
  if digits.isEmpty || !digits.all (·.isDigit) then
    .error ("strconv.ParseInt: parsing " ++ orig ++ ": invalid syntax")
  else
    let v : Int := sign * ((digits.foldl (fun n c => 10 * n + (c.toNat - '0'.toNat)) 0 : Nat) : Int)
    if v < -(2 ^ 63) || 2 ^ 63 - 1 < v then
      .error ("strconv.ParseInt: parsing " ++ orig ++ ": value out of range")
    else .ok v

/-- `strconv.ParseInt(s, 10, 0)`. -/
def parseIntGo (s : String) : Except String Int :=
  match s.data with
  | '+' :: r => parseDigitsGo s 1 r
  | '-' :: r => parseDigitsGo s (-1) r
  | r => parseDigitsGo s 1 r

/-- One window's `SUM(...)` predicate over `b.timestamp`:
`lo <= ts`, plus `ts < hi` when an upper bound is present. -/
structure Window where
  lo : Int
  hi : Option Int
  deriving DecidableEq, Repr

def windowHit (w : Window) (ts : Int) : Bool :=
  decide (w.lo ≤ ts) && (match w.hi with | none => true | some h => decide (ts < h))

/-- The window list built by the period loop, carrying the running
`days` total (initially 0); every `int64` operation wraps. -/
def mkWindows (now : Int) : List Int → Int → List Window
  | [], _ => []
  | p :: ps, days =>
    (if days == 0 then
      { lo := wrap64 (wrap64 (now - wrap64 (86400 * p)) * 1000), hi := none }
    else
      { lo := wrap64 (wrap64 (now - wrap64 (86400 * wrap64 (days + p))) * 1000),
        hi := some (wrap64 (wrap64 (now - wrap64 (86400 * days)) * 1000)) })
    :: mkWindows now ps (wrap64 (days + p))

/-- The running `days` total after the loop (`days += p` each
iteration, wrapping). -/
def sumDaysGo (vs : List Int) : Int := vs.foldl (fun d p => wrap64 (d + p)) 0

def parsePeriodsList : List String → Except String (List Int)
  | [] => .ok []
  | p :: rest => do
    let v ← parseIntGo p
    let others ← parsePeriodsList rest
    .ok (v :: others)

/-- Parses `periods` and returns the window predicates together with the
final `b.timestamp >= (now - 86400*total)*1000` cutoff, both computed
in wrapping `int64` arithmetic. -/
def parsePeriods (now : Int) (periods : String) : Except String (List Window × Int) := do
  let vs ← parsePeriodsList (splitGo ',' periods)
  .ok (mkWindows now vs 0, wrap64 (wrap64 (now - wrap64 (86400 * sumDaysGo vs)) * 1000))

/-! ### Group columns and the dynamically built query -/

inductive GroupCol where
  | sippytags
  | name
  | dashboard
  | test
  deriving DecidableEq, Repr

def parseColumns : List String → Except String (List GroupCol)
  | [] => .ok []
  | c :: rest => do
    let g ←
      if c == "sippytags" then Except.ok GroupCol.sippytags
      else if c == "name" then Except.ok GroupCol.name
      else if c == "dashboard" then Except.ok GroupCol.dashboard
      else if c == "test" then Except.ok GroupCol.test
      else Except.error ("unknown column " ++ c)
    let others ← parseColumns rest
    .ok (g :: others)

/-- One row of the joined `FROM builds b JOIN jobs j ... [jst] [tr] [t]`
row set; optional components are present exactly when the request added
the corresponding join. -/
structure QRow where
  b : BuildRow
  j : JobRow
  jst : Option TagRow := none
  tr : Option TestResultRow := none
  t : Option TestRow := none
  deriving DecidableEq, Repr

/-- `FROM builds b JOIN jobs j ON j.id = b.job_id`. -/
def baseRows (db : DB) : List QRow :=
  db.builds.flatMap fun b =>
    (db.jobs.filter fun j => j.id == b.job_id).map fun j => { b := b, j := j }

/-- `JOIN jobs_sippy_tags jst ON jst.job_id = j.id`. -/
def joinTagRows (db : DB) (rows : List QRow) : List QRow :=
  rows.flatMap fun r =>
    (db.jobs_sippy_tags.filter fun g => g.job_id == r.j.id).map fun g => { r with jst := some g }

/-- `JOIN test_results tr ON tr.build_id = b.id`. -/
def joinTestResultRows (db : DB) (rows : List QRow) : List QRow :=
  rows.flatMap fun r =>
    (db.test_results.filter fun tr => tr.build_id == r.b.id).map fun tr => { r with tr := some tr }

/-- `JOIN tests t ON t.id = tr.test_id`. -/
def joinTestRows (db : DB) (rows : List QRow) : List QRow :=
  rows.flatMap fun r =>
    (db.tests.filter fun t =>
      match r.tr with
      | some tr => t.id == tr.test_id
      | none => false).map fun t => { r with t := some t }

/-- `JOIN test_results tr ON tr.build_id = b.id AND tr.test_id = ?`
(the pin join used when no `test` group column was requested). -/
def joinPinnedTestResultRows (db : DB) (testID : Int) (rows : List QRow) : List QRow :=
  rows.flatMap fun r =>
    (db.test_results.filter fun tr => tr.build_id == r.b.id && tr.test_id == testID).map
      fun tr => { r with tr := some tr }

/-- The joins contributed by one requested group column. -/
def colJoin (db : DB) (rows : List QRow) : GroupCol → List QRow
  | .sippytags => joinTagRows db rows
  | .test => joinTestRows db (joinTestResultRows db rows)
  | .name => rows
  | .dashboard => rows

def applyColJoins (db : DB) (cols : List GroupCol) (rows : List QRow) : List QRow :=
  cols.foldl (colJoin db) rows

/-- The selected output value of one group column. -/
def groupVal (r : QRow) : GroupCol → String
  | .sippytags => (r.jst.map (·.tag)).getD ""
  | .name => r.j.name
  | .dashboard => r.j.dashboard
  | .test => (r.t.map (·.name)).getD ""

/-- The selected status column: `tr.status` when the status field was
switched to test level, `b.status` otherwise. -/
def rowStatus (isTest : Bool) (r : QRow) : Int :=
  if isTest then (r.tr.map (·.status)).getD 0 else r.b.status

/-- `FindTest` (database.go): first row of
`select id from tests where name = ?`. -/
def FindTest (db : DB) (testName : String) : Option Int :=
  (db.tests.find? fun t => t.name == testName).map (·.id)

/-! ### `GROUP BY <group columns>, <status>` -/

/-- First occurrence of each distinct element, in scan order (with a
structural fuel argument so that the kernel can evaluate it; the fuel
never runs out as it starts at the list length and filtering only
shrinks the list). -/
def firstOccurFuel {α : Type} [BEq α] : Nat → List α → List α
  | _, [] => []
  | 0, _ :: _ => []
  | fuel + 1, a :: l => a :: firstOccurFuel fuel (l.filter fun x => !(a == x))

def firstOccur {α : Type} [BEq α] (l : List α) : List α :=
  firstOccurFuel l.length l

theorem firstOccurFuel_irrel {α : Type} [BEq α] :
    ∀ (fuel : Nat) (l : List α) (fuel' : Nat), l.length ≤ fuel → l.length ≤ fuel' →
      firstOccurFuel fuel l = firstOccurFuel fuel' l := by
  intro fuel
  induction fuel with
  | zero =>
    intro l fuel' hl _
    have : l = [] := List.length_eq_zero.mp (Nat.le_zero.mp hl)
    subst this
    cases fuel' <;> rfl
  | succ fuel ih =>
    intro l fuel' hl hl'
    cases l with
    | nil => cases fuel' <;> rfl
    | cons a rest =>
      cases fuel' with
      | zero => exact absurd hl' (by simp)
      | succ fuel' =>
        show a :: firstOccurFuel fuel _ = a :: firstOccurFuel fuel' _
        congr 1
        exact ih _ fuel'
          (le_trans (List.length_filter_le _ _) (by simpa using hl))
          (le_trans (List.length_filter_le _ _) (by simpa using hl'))

/-- One grouped output row: group-column values, status, and one SUM per
requested window. -/
structure GRow where
  vals : List String
  status : Int
  sums : List Int
  deriving DecidableEq, Repr

def rowKey (cols : List GroupCol) (isTest : Bool) (r : QRow) : List String × Int :=
  (cols.map (groupVal r), rowStatus isTest r)

/-- One grouped output row for group key `k`: `SUM(windowPred)` counts
the key's rows inside each window. -/
def mkGRow (cols : List GroupCol) (isTest : Bool) (ws : List Window) (rows : List QRow)
    (k : List String × Int) : GRow :=
  { vals := k.1
    status := k.2
    sums := ws.map fun w =>
      (((rows.filter fun r => rowKey cols isTest r == k).countP
        fun r2 => windowHit w r2.b.timestamp : Nat) : Int) }

/-- Grouping with per-window boolean sums, one output row per distinct
group key in first-scan order. -/
def groupRows (cols : List GroupCol) (isTest : Bool) (ws : List Window) (rows : List QRow) :
    List GRow :=
  (firstOccur (rows.map (rowKey cols isTest))).map (mkGRow cols isTest ws rows)

/-! ### Response shape and the row fold (database.go, result loop) -/

structure StatsValues where
  pass : Int
  flake : Int
  fail : Int
  deriving DecidableEq, Repr

structure StatsRow where
  columns : List String
  values : List StatsValues
  deriving DecidableEq, Repr

structure Stats where
  data : List StatsRow
  deriving DecidableEq, Repr

def zeroSV : StatsValues := { pass := 0, flake := 0, fail := 0 }

def zeroVals (n : Nat) : List StatsValues := List.replicate n zeroSV

inductive CounterKind where
  | pass
  | flake
  | fail
  deriving DecidableEq, Repr

/-- The fixed status classification of the fold: test-level
pass/pass-with-skips count as pass, flaky as flake, fail as fail;
job-level 1 as pass, 2 as fail; anything else is logged and ignored. -/
def statusKind (isTest : Bool) (status : Int) : Option CounterKind :=
  if isTest then
    if status == TestStatusPass || status == TestStatusPassWithSkips then some .pass
    else if status == TestStatusFlaky then some .flake
    else if status == TestStatusFail then some .fail
    else none
  else
    if status == 1 then some .pass
    else if status == 2 then some .fail
    else none

def bumpSV (k : CounterKind) (v : StatsValues) (s : Int) : StatsValues :=
  match k with
  | .pass => { v with pass := v.pass + s }
  | .flake => { v with flake := v.flake + s }
  | .fail => { v with fail := v.fail + s }

/-- `row.Values[i].{Pass,Flake,Fail} += *p` for every window `i`. -/
def accumStatus (isTest : Bool) (status : Int) (sums : List Int) (vals : List StatsValues) :
    List StatsValues :=
  match statusKind isTest status with
  | none => vals
  | some k => List.zipWith (bumpSV k) vals sums

/-- The bucket key: every group-column value prefixed by `/`,
concatenated. -/
def rowKeyString (vals : List String) : String :=
  vals.foldl (fun k v => k ++ "/" ++ v) ""

/-- Accumulates one scanned row into `results.Data`: an existing row
with the same key is updated in place, otherwise a fresh zero row is
appended at the end (discovery order). -/
def foldInsert (isTest : Bool) (nper : Nat) (gr : GRow) : List StatsRow → List StatsRow
  | [] => [{ columns := gr.vals, values := accumStatus isTest gr.status gr.sums (zeroVals nper) }]
  | r :: rest =>
    if rowKeyString r.columns == rowKeyString gr.vals then
      { r with values := accumStatus isTest gr.status gr.sums r.values } :: rest
    else r :: foldInsert isTest nper gr rest

def foldRows (isTest : Bool) (nper : Nat) (grs : List GRow) : Stats :=
  { data := grs.foldl (fun data gr => foldInsert isTest nper gr data) [] }

/-! ### `BuildStats` (database.go) -/

/-- How a non-empty `testname` restricts the query: a `WHERE
tr.test_id = ?` condition when the `test` group column already joined
`tr`, or a dedicated pinned join otherwise. -/
inductive TestPin where
  | whereCond (testID : Int)
  | joinCond (testID : Int)
  deriving DecidableEq, Repr

/-- Executes the built query and folds its rows (the part of
`BuildStats` after `testname` resolution). -/
def buildStatsRun (db : DB) (jobIDs : Option (List Int)) (cols : List GroupCol) (isTest : Bool)
    (pin : Option TestPin) (periods : String) (now : Int) : Except String Stats :=
  match parsePeriods now periods with
  | .error e => .error e
  | .ok (ws, cutoff) =>
    let rows0 := applyColJoins db cols (baseRows db)
    let rows1 :=
      match pin with
      | some (.joinCond tid) => joinPinnedTestResultRows db tid rows0
      | _ => rows0
    let rows2 := rows1.filter fun r =>
      (match jobIDs with
        | none => true
        | some ids => ids.contains r.j.id) &&
      (match pin with
        | some (.whereCond tid) =>
          (match r.tr with
            | some tr => tr.test_id == tid
            | none => false)
        | _ => true) &&
      decide (cutoff ≤ r.b.timestamp)
    .ok (foldRows isTest ws.length (groupRows cols isTest ws rows2))

/-- `BuildStats` after the filter has been resolved to `jobIDs`. -/
def buildStatsAfterFilter (db : DB) (jobIDs : Option (List Int))
    (columns periods testName : String) (now : Int) : Except String Stats :=
  match parseColumns (splitGo ',' columns) with
  | .error e => .error e
  | .ok cols =>
    let isTestCols := cols.contains GroupCol.test
    if testName == "" then
      buildStatsRun db jobIDs cols isTestCols none periods now
    else
      match FindTest db testName with
      | none => .ok { data := [] }
      | some testID =>
        if isTestCols then
          buildStatsRun db jobIDs cols true (some (.whereCond testID)) periods now
        else
          buildStatsRun db jobIDs cols true (some (.joinCond testID)) periods now

/-- `dbImpl.BuildStats` (database.go): filter resolution with its empty
short-circuit, then group columns, testname pin, periods, one grouped
query and the row fold. -/
def BuildStats (db : DB) (columns filter periods testName : String) (now : Int) :
    Except String Stats :=
  if filter == "" then
    buildStatsAfterFilter db none columns periods testName now
  else
    match findJobIDsByFilter db filter with
    | .error e => .error e
    | .ok [] => .ok { data := [] }
    | .ok ids => buildStatsAfterFilter db (some ids) columns periods testName now

/-! ### `ServeBuilds` (server.go) -/

/-- Observable outcome of the `/api/builds` handler: an `http.Error`
with its status code and body, or the JSON-encoded `Stats` payload
(encoding abstracted as the value itself). -/
inductive HTTPResult where
  | httpError (status : Nat) (body : String)
  | payload (stats : Stats)
  deriving DecidableEq, Repr

/-- `ServerOptions.ServeBuilds`: query-parameter defaults, one
`BuildStats` call, and a blanket `500 internal server error` on any
failure. -/
def ServeBuilds (db : DB) (now : Int) (columnsQ filterQ periodsQ testnameQ : String) :
    HTTPResult :=
  let columns := if columnsQ == "" then "sippytags" else columnsQ
  let periods := if periodsQ == "" then "7,7" else periodsQ
  match BuildStats db columns filterQ periods testnameQ now with
  | .error _ => .httpError 500 "500 internal server error"
  | .ok stats => .payload stats

/-! ### Store write path (database.go upserts) and the persist stage

The LRU caches (`lru.New(20/100/5000)`) are modelled as association
lists with most-recent-first insertion; capacity eviction and recency
reordering are abstracted away (they only drop entries, every dropped
entry is re-resolved through the table lookup, and the tables are the
durable state the claims are about). -/

def assocAdd {α β : Type} [BEq α] (k : α) (v : β) (c : List (α × β)) : List (α × β) :=
  (k, v) :: c.filter fun p => !(p.1 == k)

structure Store extends DB where
  jobsCache : List (String × Int)
  buildsCache : List ((Int × String) × Int)
  testsCache : List (String × Int)
  deriving DecidableEq, Repr

/-- `database.JobTags`. -/
structure JobTags where
  platform : String
  mod : String
  testtype : String
  sippy : List String
  deriving DecidableEq, Repr

/-- sqlite's rowid allocation for `integer primary key`: one more than
the largest id in use. -/
def nextId (ids : List Int) : Int := ids.foldl max 0 + 1

/-- `FindJob`: cache first, then `select id from jobs where name = ?`;
`none` models `errNotFound`. -/
def FindJob (st : Store) (name : String) : Option Int × Store :=
  match st.jobsCache.lookup name with
  | some id => (some id, st)
  | none =>
    match st.jobs.find? fun j => j.name == name with
    | some j => (some j.id, { st with jobsCache := assocAdd name j.id st.jobsCache })
    | none => (none, st)

/-- `InsertJob`: `insert or ignore into jobs ...`, `LastInsertId`, cache
population, then one `insert into jobs_sippy_tags` per sippy tag.  On a
duplicate name the insert is ignored and sqlite's `LastInsertId` is
stale; the persist stage only calls this after `FindJob` returned
NotFound, so that branch is modelled as returning the existing row's
id. -/
def InsertJob (st : Store) (name dashboard : String) (tags : JobTags) : Int × Store :=
  match st.jobs.find? fun j => j.name == name with
  | some j =>
    (j.id, { st with
      jobsCache := assocAdd name j.id st.jobsCache
      jobs_sippy_tags :=
        st.jobs_sippy_tags ++ tags.sippy.map fun t => { job_id := j.id, tag := t } })
  | none =>
    let id := nextId (st.jobs.map (·.id))
    (id, { st with
      jobs := st.jobs ++ [{ id := id, name := name, dashboard := dashboard,
                            platform := tags.platform, mod := tags.mod,
                            testtype := tags.testtype }]
      jobsCache := assocAdd name id st.jobsCache
      jobs_sippy_tags :=
        st.jobs_sippy_tags ++ tags.sippy.map fun t => { job_id := id, tag := t } })

/-- `UpsertBuild`: cache check, point lookup, insert-or-ignore with
`LastInsertId`; returns the existing id when the (job, number) pair is
already stored. -/
def UpsertBuild (st : Store) (jobID : Int) (number : String) (timestamp : Int) (status : Int) :
    Int × Store :=
  match st.buildsCache.lookup (jobID, number) with
  | some id => (id, st)
  | none =>
    match st.builds.find? fun b => b.job_id == jobID && b.number == number with
    | some b => (b.id, { st with buildsCache := assocAdd (jobID, number) b.id st.buildsCache })
    | none =>
      let id := nextId (st.builds.map (·.id))
      (id, { st with
        builds := st.builds ++ [{ id := id, job_id := jobID, number := number,
                                  timestamp := timestamp, status := status }]
        buildsCache := assocAdd (jobID, number) id st.buildsCache })

/-- `UpsertTest`: same discipline keyed by test name. -/
def UpsertTest (st : Store) (name : String) : Int × Store :=
  match st.testsCache.lookup name with
  | some id => (id, st)
  | none =>
    match st.tests.find? fun t => t.name == name with
    | some t => (t.id, { st with testsCache := assocAdd name t.id st.testsCache })
    | none =>
      let id := nextId (st.tests.map (·.id))
      (id, { st with
        tests := st.tests ++ [{ id := id, name := name }]
        testsCache := assocAdd name id st.testsCache })

/-- `UpsertTestResult`: `select 1 ...` then insert-or-ignore; a
pre-existing (build, test) pair silently no-ops. -/
def UpsertTestResult (st : Store) (buildID testID : Int) (status : Int) : Store :=
  if st.test_results.any fun tr => tr.build_id == buildID && tr.test_id == testID then st
  else
    { st with test_results :=
        st.test_results ++ [{ build_id := buildID, test_id := testID, status := status }] }

/-! ### The persist worker (indexer.go, third `spawn` block) -/

/-- One flattened build record from the fetch stage; the Go
`map[string]testgrid.TestStatus` is modelled as an association list with
distinct keys, in iteration order. -/
structure BuildRec where
  jobDashboard : String
  jobName : String
  number : String
  timestamp : Int
  tests : List (String × Int)
  deriving DecidableEq, Repr

/-- `running`: any contained test has status running. -/
def hasRunning (tests : List (String × Int)) : Bool :=
  tests.any fun p => p.2 == TestStatusRunning

/-- `buildStatus`: 2 (failure) iff `build.Tests["Overall"]` equals
`TestStatusFail` (a missing key reads as the zero value 0), else 1. -/
def buildStatusOf (tests : List (String × Int)) : Int :=
  if (tests.lookup "Overall").getD 0 == TestStatusFail then 2 else 1

def persistTests (st : Store) (buildID : Int) : List (String × Int) → Store
  | [] => st
  | (name, status) :: rest =>
    let p := UpsertTest st name
    persistTests (UpsertTestResult p.2 buildID p.1 status) buildID rest

/-- The loop body of the persist worker: skip running builds, derive the
overall status, resolve or create the job (classifier `tagsOf` is the
pluggable `jobTags`), upsert the build, then every test result. -/
def persistBuild (tagsOf : String → String → JobTags) (st : Store) (bld : BuildRec) : Store :=
  if hasRunning bld.tests then st
  else
    let p1 := FindJob st bld.jobName
    let p2 :=
      match p1.1 with
      | some id => (id, p1.2)
      | none => InsertJob p1.2 bld.jobName bld.jobDashboard (tagsOf bld.jobDashboard bld.jobName)
    let p3 := UpsertBuild p2.2 p2.1 bld.number bld.timestamp (buildStatusOf bld.tests)
    persistTests p3.2 p3.1 bld.tests

/-- The whole drain loop over the builds queue. -/
def persistAll (tagsOf : String → String → JobTags) (st : Store) (blds : List BuildRec) : Store :=
  blds.foldl (persistBuild tagsOf) st

/-! ### Derived observation functions used by the theorems -/

/-- Whether a build timestamped `ts` is counted in window `i`'s SUM
column of a `periods` request: it must satisfy both the window's
predicate and the final `b.timestamp >= cutoff` condition. -/
def countedIn (now : Int) (periodsS : String) (i : Nat) (ts : Int) : Bool :=
  match parsePeriods now periodsS with
  | .error _ => false
  | .ok (ws, cutoff) =>
    (match ws[i]? with
      | none => false
      | some w => windowHit w ts) && decide (cutoff ≤ ts)

def addSV (a b : StatsValues) : StatsValues :=
  { pass := a.pass + b.pass, flake := a.flake + b.flake, fail := a.fail + b.fail }

def addVals (a b : List StatsValues) : List StatsValues := List.zipWith addSV a b

def sumVals (n : Nat) (l : List (List StatsValues)) : List StatsValues :=
  l.foldr addVals (zeroVals n)

/-- Componentwise pass/flake/fail totals of a response, one entry per
requested window. -/
def totals (n : Nat) (s : Stats) : List StatsValues :=
  sumVals n (s.data.map (·.values))

/-- The contribution of one pre-grouping query row to the totals. -/
def rowContrib (isTest : Bool) (ws : List Window) (r : QRow) : List StatsValues :=
  accumStatus isTest (rowStatus isTest r)
    (ws.map fun w => if windowHit w r.b.timestamp then (1 : Int) else 0)
    (zeroVals ws.length)

/-! ### Concrete fixtures for counterexamples and witnesses -/

def dbEmpty : DB :=
  { jobs := [], jobs_sippy_tags := [], builds := [], tests := [], test_results := [] }

/-- Three jobs tagged {aws}, {gcp}, {aws,fips} (claim C5's scenario). -/
def dbFilterEx : DB :=
  { jobs :=
      [{ id := 1, name := "job-aws", dashboard := "d", platform := "p", mod := "m", testtype := "t" },
       { id := 2, name := "job-gcp", dashboard := "d", platform := "p", mod := "m", testtype := "t" },
       { id := 3, name := "job-aws-fips", dashboard := "d", platform := "p", mod := "m", testtype := "t" }]
    jobs_sippy_tags :=
      [{ job_id := 1, tag := "aws" }, { job_id := 2, tag := "gcp" },
       { job_id := 3, tag := "aws" }, { job_id := 3, tag := "fips" }]
    builds := [], tests := [], test_results := [] }

/-- One job with one tag, one build whose only test is a flaky
"Overall" (status 13), timestamped at `nowFix`; the build-level status
is 1 as derived by the persist stage. -/
def dbFlakyOverall : DB :=
  { jobs :=
      [{ id := 1, name := "j1", dashboard := "d", platform := "p", mod := "m", testtype := "t" }]
    jobs_sippy_tags := [{ job_id := 1, tag := "aws" }]
    builds := [{ id := 1, job_id := 1, number := "100", timestamp := 8640000000, status := 1 }]
    tests := [{ id := 1, name := "Overall" }]
    test_results := [{ build_id := 1, test_id := 1, status := 13 }] }

/-- A store-state fixture for upsert/persist witnesses. -/
def storeEmpty : Store :=
  { toDB := dbEmpty, jobsCache := [], buildsCache := [], testsCache := [] }

def nowFix : Int := 8640000

/-- Like `dbFlakyOverall` but with a failing "Overall" (status 12) and
the build-level status 2 derived from it. -/
def dbOverallFail : DB :=
  { jobs :=
      [{ id := 1, name := "j1", dashboard := "d", platform := "p", mod := "m", testtype := "t" }]
    jobs_sippy_tags := [{ job_id := 1, tag := "aws" }]
    builds := [{ id := 1, job_id := 1, number := "100", timestamp := 8640000000, status := 2 }]
    tests := [{ id := 7, name := "Overall" }]
    test_results := [{ build_id := 1, test_id := 7, status := 12 }] }

/-- A store holding one build row (id 5) for job 1, number "42". -/
def storeOneBuild : Store :=
  { toDB :=
      { jobs := [], jobs_sippy_tags := []
        builds := [{ id := 5, job_id := 1, number := "42", timestamp := 999, status := 1 }]
        tests := [], test_results := [] }
    jobsCache := [], buildsCache := [], testsCache := [] }

/-! ## Helper lemmas about the store write path -/

theorem UpsertTest_builds (st : Store) (n : String) : ((UpsertTest st n).2).builds = st.builds := by
  unfold UpsertTest
  split
  · rfl
  · split <;> rfl

theorem UpsertTestResult_builds (st : Store) (b t s : Int) :
    (UpsertTestResult st b t s).builds = st.builds := by
  unfold UpsertTestResult
  split <;> rfl

theorem persistTests_builds (buildID : Int) (l : List (String × Int)) (st : Store) :
    (persistTests st buildID l).builds = st.builds := by
  induction l generalizing st with
  | nil => rfl
  | cons p rest ih =>
    obtain ⟨name, status⟩ := p
    show (persistTests _ _ rest).builds = _
    rw [ih, UpsertTestResult_builds, UpsertTest_builds]

theorem FindJob_builds (st : Store) (n : String) : ((FindJob st n).2).builds = st.builds := by
  unfold FindJob
  split
  · rfl
  · split <;> rfl

theorem InsertJob_builds (st : Store) (n d : String) (tags : JobTags) :
    ((InsertJob st n d tags).2).builds = st.builds := by
  unfold InsertJob
  split <;> rfl

theorem UpsertBuild_builds (st : Store) (jobID : Int) (number : String) (ts s : Int) :
    ((UpsertBuild st jobID number ts s).2).builds = st.builds ∨
    ((UpsertBuild st jobID number ts s).2).builds =
      st.builds ++ [{ id := nextId (st.builds.map (·.id)), job_id := jobID, number := number,
                      timestamp := ts, status := s }] := by
  unfold UpsertBuild
  split
  · exact Or.inl rfl
  · split
    · exact Or.inl rfl
    · exact Or.inr rfl

/-! ## Claim theorems -/

/-- C8: a build record containing any test with status running (4) is
skipped outright by the persist worker: processing it leaves the store
untouched (no Build, TestResult or Job row), and removing it from the
queue does not change the end-of-run store. -/
theorem c8_running_build_never_persisted (tagsOf : String → String → JobTags) (st : Store)
    (bld : BuildRec) (pre post : List BuildRec)
    (h : ∃ p ∈ bld.tests, p.2 = TestStatusRunning) :
    persistBuild tagsOf st bld = st ∧
    persistAll tagsOf st (pre ++ bld :: post) = persistAll tagsOf st (pre ++ post) := by
  have hrun : hasRunning bld.tests = true := by
    rcases h with ⟨p, hp, hs⟩
    unfold hasRunning
    rw [List.any_eq_true]
    exact ⟨p, hp, by rw [hs]; exact beq_self_eq_true _⟩
  have hskip : persistBuild tagsOf st bld = st := by
    unfold persistBuild
    rw [hrun]
    rfl
  refine ⟨hskip, ?_⟩
  unfold persistAll
  rw [List.foldl_append, List.foldl_append, List.foldl_cons]
  have : persistBuild tagsOf (List.foldl (persistBuild tagsOf) st pre) bld =
      List.foldl (persistBuild tagsOf) st pre := by
    unfold persistBuild
    rw [hrun]
    rfl
  rw [this]

/-- C8 witness. -/
theorem c8_running_build_never_persisted_witness :
    persistBuild (fun _ _ => { platform := "p", mod := "m", testtype := "t", sippy := [] })
      storeEmpty
      { jobDashboard := "d", jobName := "j", number := "1", timestamp := 0,
        tests := [("Overall", 1), ("t1", 4)] } = storeEmpty :=
  (c8_running_build_never_persisted _ storeEmpty _ [] []
    ⟨("t1", 4), by simp, rfl⟩).1

/-- C9: the persist stage derives the stored overall build status as
failure (2) exactly when the record's "Overall" test is present with
status fail (12); in every other case — "Overall" missing, flaky, or
any non-fail status — it is success (1), and any build row the stage
writes carries exactly that derived status. -/
theorem c9_build_status_from_overall (tagsOf : String → String → JobTags) (st : Store)
    (bld : BuildRec) :
    (buildStatusOf bld.tests = 2 ↔ bld.tests.lookup "Overall" = some TestStatusFail) ∧
    (bld.tests.lookup "Overall" ≠ some TestStatusFail → buildStatusOf bld.tests = 1) ∧
    (∀ r ∈ (persistBuild tagsOf st bld).builds,
      r ∈ st.builds ∨
        (r.number = bld.number ∧ r.timestamp = bld.timestamp ∧
          r.status = buildStatusOf bld.tests)) := by
  have hiff : buildStatusOf bld.tests = 2 ↔ bld.tests.lookup "Overall" = some TestStatusFail := by
    unfold buildStatusOf
    cases h : bld.tests.lookup "Overall" with
    | none => simp [h, TestStatusFail]
    | some v =>
      simp only [h, Option.getD_some, TestStatusFail]
      by_cases hv : v = 12
      · simp [hv]
      · simp [hv, beq_iff_eq]
  refine ⟨hiff, ?_, ?_⟩
  · intro hne
    unfold buildStatusOf
    cases h : bld.tests.lookup "Overall" with
    | none => simp [h, TestStatusFail]
    | some v =>
      simp only [h, Option.getD_some, TestStatusFail]
      have hv : v ≠ 12 := by
        intro hv
        exact hne (by rw [h, hv]; rfl)
      simp [hv, beq_iff_eq]
  · intro r hr
    unfold persistBuild at hr
    by_cases hrun : hasRunning bld.tests = true
    · rw [if_pos hrun] at hr
      exact Or.inl hr
    · rw [if_neg hrun] at hr
      rw [persistTests_builds] at hr
      set st2 : Store :=
        (match (FindJob st bld.jobName).1 with
          | some id => (id, (FindJob st bld.jobName).2)
          | none => InsertJob (FindJob st bld.jobName).2 bld.jobName bld.jobDashboard
              (tagsOf bld.jobDashboard bld.jobName)).2 with hst2
      have hbuilds2 : st2.builds = st.builds := by
        rw [hst2]
        cases hfj : (FindJob st bld.jobName).1 with
        | some id => simp only []; rw [FindJob_builds]
        | none => simp only []; rw [InsertJob_builds, FindJob_builds]
      rcases UpsertBuild_builds st2 _ bld.number bld.timestamp (buildStatusOf bld.tests) with
        hub | hub
      · rw [hub, hbuilds2] at hr
        exact Or.inl hr
      · rw [hub, hbuilds2] at hr
        rcases List.mem_append.mp hr with hmem | hmem
        · exact Or.inl hmem
        · rcases List.mem_singleton.mp hmem with rfl
          exact Or.inr ⟨rfl, rfl, rfl⟩

/-- C9 witness. -/
theorem c9_build_status_from_overall_witness :
    buildStatusOf [("Overall", 13)] ≠ 2 ∧ buildStatusOf [("t1", 12)] = 1 ∧
    buildStatusOf [("Overall", 12)] = 2 :=
  ⟨fun h => by
      have := (c9_build_status_from_overall (fun _ _ => ⟨"p", "m", "t", []⟩) storeEmpty
        { jobDashboard := "d", jobName := "j", number := "1", timestamp := 0,
          tests := [("Overall", 13)] }).1.mp h
      simp [TestStatusFail] at this,
    (c9_build_status_from_overall (fun _ _ => ⟨"p", "m", "t", []⟩) storeEmpty
      { jobDashboard := "d", jobName := "j", number := "1", timestamp := 0,
        tests := [("t1", 12)] }).2.1 (by decide),
    by decide⟩

theorem assocAdd_lookup_self {α β : Type} [BEq α] [LawfulBEq α] (k : α) (v : β)
    (c : List (α × β)) : (assocAdd k v c).lookup k = some v := by
  unfold assocAdd
  rw [List.lookup_cons]
  simp

theorem UpsertBuild_cache_hit (st : Store) (jobID : Int) (number : String) (ts s id : Int)
    (h : st.buildsCache.lookup (jobID, number) = some id) :
    UpsertBuild st jobID number ts s = (id, st) := by
  unfold UpsertBuild
  rw [h]

/-- C7: upserting the same (job, build-number) pair twice leaves the
store exactly as after the first call and returns the same id; when a
row for the pair already exists (with a consistent cache and the unique
(job_id, number) index), the returned id is that row's id; and a second
`UpsertTestResult` for the same (build, test) pair is a no-op that keeps
the first stored status. -/
theorem c7_upsert_idempotent (st : Store) (jobID : Int) (number : String)
    (ts ts' s s' : Int) (buildID testID trS trS' : Int) :
    ((UpsertBuild (UpsertBuild st jobID number ts s).2 jobID number ts' s').2 =
        (UpsertBuild st jobID number ts s).2 ∧
      (UpsertBuild (UpsertBuild st jobID number ts s).2 jobID number ts' s').1 =
        (UpsertBuild st jobID number ts s).1) ∧
    (∀ b ∈ st.builds, b.job_id = jobID → b.number = number →
      (∀ k id, st.buildsCache.lookup k = some id →
        ∃ b' ∈ st.builds, b'.job_id = k.1 ∧ b'.number = k.2 ∧ b'.id = id) →
      (∀ b' ∈ st.builds, b'.job_id = jobID → b'.number = number → b' = b) →
      (UpsertBuild st jobID number ts s).1 = b.id) ∧
    UpsertTestResult (UpsertTestResult st buildID testID trS) buildID testID trS' =
      UpsertTestResult st buildID testID trS := by
  refine ⟨?_, ?_, ?_⟩
  · -- after any first call, the cache holds the key, so the second call
    -- is a pure cache hit
    have hcache : ((UpsertBuild st jobID number ts s).2).buildsCache.lookup (jobID, number) =
        some (UpsertBuild st jobID number ts s).1 := by
      unfold UpsertBuild
      cases h1 : st.buildsCache.lookup (jobID, number) with
      | some id => simp [h1]
      | none =>
        cases h2 : st.builds.find? fun b => b.job_id == jobID && b.number == number with
        | some b => simp [h1, h2, assocAdd_lookup_self]
        | none => simp [h1, h2, assocAdd_lookup_self]
    rw [UpsertBuild_cache_hit _ _ _ _ _ _ hcache]
    exact ⟨rfl, rfl⟩
  · intro b hb hbj hbn hc huniq
    unfold UpsertBuild
    cases h1 : st.buildsCache.lookup (jobID, number) with
    | some id =>
      obtain ⟨b', hb', hj', hn', hid'⟩ := hc (jobID, number) id h1
      have : b' = b := huniq b' hb' hj' hn'
      subst this
      simpa using hid'.symm
    | none =>
      cases h2 : st.builds.find? fun x => x.job_id == jobID && x.number == number with
      | some b'' =>
        have hmem : b'' ∈ st.builds := List.mem_of_find?_eq_some h2
        have hpred := List.find?_some h2
        rw [Bool.and_eq_true, beq_iff_eq, beq_iff_eq] at hpred
        have : b'' = b := huniq b'' hmem hpred.1 hpred.2
        subst this
        rfl
      | none =>
        exfalso
        have := List.find?_eq_none.mp h2 b hb
        rw [hbj, hbn] at this
        simp at this
  · unfold UpsertTestResult
    by_cases h : (st.test_results.any fun tr => tr.build_id == buildID && tr.test_id == testID) =
        true
    · simp only [if_pos h]
    · simp only [if_neg h]
      simp [List.any_append]

/-- C7 witness. -/
theorem c7_upsert_idempotent_witness :
    ((UpsertBuild (UpsertBuild storeOneBuild 1 "42" 7 2).2 1 "42" 8 1).1 =
        (UpsertBuild storeOneBuild 1 "42" 7 2).1) ∧
    (UpsertBuild storeOneBuild 1 "42" 7 2).1 = 5 ∧
    UpsertTestResult (UpsertTestResult storeOneBuild 1 2 12) 1 2 13 =
      UpsertTestResult storeOneBuild 1 2 12 := by
  have h := c7_upsert_idempotent storeOneBuild 1 "42" 7 8 2 1 1 2 12 13
  refine ⟨h.1.2, ?_, h.2.2⟩
  have h5 := h.2.1 { id := 5, job_id := 1, number := "42", timestamp := 999, status := 1 }
    (by decide) rfl rfl (fun k id hk => nomatch hk)
    (fun b' hb' _ _ => by
      rcases List.mem_singleton.mp hb' with rfl
      rfl)
  exact h5

/-- C2: the fold's classification is fixed: job-level status 1 always
accumulates into pass and 2 into fail; test-level pass (1) and
pass-with-skips (3) into pass, flaky (13) into flake, fail (12) into
fail — in every requested window `i`. -/
theorem c2_status_classification (sums : List Int) (vals : List StatsValues) (i : Nat)
    (h1 : i < vals.length) (h2 : i < sums.length) :
    (accumStatus false 1 sums vals)[i]? =
      some { vals[i] with pass := vals[i].pass + sums[i] } ∧
    (accumStatus false 2 sums vals)[i]? =
      some { vals[i] with fail := vals[i].fail + sums[i] } ∧
    (accumStatus true TestStatusPass sums vals)[i]? =
      some { vals[i] with pass := vals[i].pass + sums[i] } ∧
    (accumStatus true TestStatusPassWithSkips sums vals)[i]? =
      some { vals[i] with pass := vals[i].pass + sums[i] } ∧
    (accumStatus true TestStatusFlaky sums vals)[i]? =
      some { vals[i] with flake := vals[i].flake + sums[i] } ∧
    (accumStatus true TestStatusFail sums vals)[i]? =
      some { vals[i] with fail := vals[i].fail + sums[i] } := by
  have key : ∀ k : CounterKind, (List.zipWith (bumpSV k) vals sums)[i]? =
      some (bumpSV k vals[i] sums[i]) := by
    intro k
    rw [List.getElem?_zipWith, List.getElem?_eq_getElem h1, List.getElem?_eq_getElem h2]
  exact ⟨key .pass, key .fail, key .pass, key .pass, key .flake, key .fail⟩

/-- C2 witness. -/
theorem c2_status_classification_witness :
    (accumStatus false 1 [(5 : Int)] [{ pass := 1, flake := 2, fail := 3 }])[0]? =
      some { pass := 6, flake := 2, fail := 3 } := by
  have h := c2_status_classification [(5 : Int)] [{ pass := 1, flake := 2, fail := 3 }] 0
    (by decide) (by decide)
  simpa using h.1

/-- C10: the fold buckets rows by the `/`-prefixed concatenation of
their group-column values, so two distinct group tuples with the same
concatenation (possible when a value contains `/` and several group
columns are requested) merge into a single output row that keeps the
first-seen tuple's column values and accumulates both rows' counts. -/
theorem c10_group_key_collision (isTest : Bool) (nper : Nat) (r1 r2 : GRow)
    (hk : rowKeyString r1.vals = rowKeyString r2.vals) (_hne : r1.vals ≠ r2.vals) :
    foldRows isTest nper [r1, r2] =
      { data := [{ columns := r1.vals,
                   values := accumStatus isTest r2.status r2.sums
                     (accumStatus isTest r1.status r1.sums (zeroVals nper)) }] } ∧
    rowKeyString ["a/", "b"] = rowKeyString ["a", "/b"] ∧
    (["a/", "b"] : List String) ≠ ["a", "/b"] := by
  have hbeq : (rowKeyString r1.vals == rowKeyString r2.vals) = true := by
    rw [hk]
    exact beq_self_eq_true _
  refine ⟨?_, by decide, by decide⟩
  unfold foldRows
  simp only [List.foldl_cons, List.foldl_nil]
  have e1 : foldInsert isTest nper r1 [] =
      [{ columns := r1.vals, values := accumStatus isTest r1.status r1.sums (zeroVals nper) }] :=
    rfl
  rw [e1]
  unfold foldInsert
  rw [if_pos hbeq]

/-- C10 witness. -/
theorem c10_group_key_collision_witness :
    foldRows false 1 [{ vals := ["a/", "b"], status := 1, sums := [2] },
                      { vals := ["a", "/b"], status := 2, sums := [3] }] =
      { data := [{ columns := ["a/", "b"],
                   values := [{ pass := 2, flake := 0, fail := 3 }] }] } := by
  have h := c10_group_key_collision false 1
    { vals := ["a/", "b"], status := 1, sums := [2] }
    { vals := ["a", "/b"], status := 2, sums := [3] } (by decide) (by decide)
  exact h.1.trans (by decide)

theorem foldl_mul_eq_prod (f : FilterTerm → Nat) (terms : List FilterTerm) (a : Nat) :
    terms.foldl (fun n t => n * f t) a = a * (terms.map f).prod := by
  induction terms generalizing a with
  | nil => simp
  | cons t ts ih => simp [ih, Nat.mul_assoc]

/-- A list whose elements pairwise never both satisfy `p` has at most
one element satisfying `p`. -/
theorem length_filter_le_one {α : Type} (p : α → Bool) (l : List α)
    (h : l.Pairwise fun a b => ¬(p a = true ∧ p b = true)) : (l.filter p).length ≤ 1 := by
  induction l with
  | nil => simp
  | cons a rest ih =>
    rcases List.pairwise_cons.mp h with ⟨ha, hrest⟩
    by_cases hp : p a = true
    · rw [List.filter_cons_of_pos hp]
      have hnil : rest.filter p = [] := by
        rw [List.filter_eq_nil_iff]
        intro b hb hpb
        exact ha b hb ⟨hp, hpb⟩
      rw [hnil]
      exact Nat.le_refl 1
    · rw [List.filter_cons_of_neg hp]
      exact ih hrest

/-- The unique `(job_id, tag)` index on `jobs_sippy_tags`. -/
def TagsUnique (db : DB) : Prop :=
  db.jobs_sippy_tags.Pairwise fun g1 g2 => ¬(g1.job_id = g2.job_id ∧ g1.tag = g2.tag)

instance (db : DB) : Decidable (TagsUnique db) := by
  unfold TagsUnique
  infer_instance

theorem TagsUnique.filter_le_one {db : DB} (huniq : TagsUnique db) (jid : Int) (tag : String) :
    (db.jobs_sippy_tags.filter fun g => g.job_id == jid && g.tag == tag).length ≤ 1 := by
  apply length_filter_le_one
  apply List.Pairwise.imp ?_ huniq
  intro g1 g2 hne ⟨h1, h2⟩
  rw [Bool.and_eq_true, beq_iff_eq, beq_iff_eq] at h1 h2
  exact hne ⟨h1.1.trans h2.1.symm, h1.2.trans h2.2.symm⟩

theorem termJoinCount_indicator (db : DB) (jid : Int) (huniq : TagsUnique db)
    (t : FilterTerm) :
    termJoinCount db jid t = if termHolds db jid t then 1 else 0 := by
  cases t with
  | inc tag =>
    simp only [termJoinCount, termHolds]
    by_cases h : (db.jobs_sippy_tags.any fun g => g.job_id == jid && g.tag == tag) = true
    · rw [if_pos h]
      rcases List.any_eq_true.mp h with ⟨g, hg, hpg⟩
      have hmem : g ∈ db.jobs_sippy_tags.filter fun g => g.job_id == jid && g.tag == tag :=
        List.mem_filter.mpr ⟨hg, hpg⟩
      have hpos : 0 < (db.jobs_sippy_tags.filter
          fun g => g.job_id == jid && g.tag == tag).length :=
        List.length_pos.mpr (List.ne_nil_of_mem hmem)
      exact Nat.le_antisymm (huniq.filter_le_one jid tag) hpos
    · rw [if_neg h]
      have hnil : (db.jobs_sippy_tags.filter fun g => g.job_id == jid && g.tag == tag) = [] := by
        rw [List.filter_eq_nil_iff]
        intro g hg hpg
        exact h (List.any_eq_true.mpr ⟨g, hg, hpg⟩)
      rw [hnil]
      rfl
  | exc tag =>
    simp only [termJoinCount, termHolds]
    by_cases h : (db.jobs_sippy_tags.any fun g => g.job_id == jid && g.tag == tag) = true <;>
      simp [h]

theorem prod_termHolds_indicator (db : DB) (jid : Int) (terms : List FilterTerm) :
    (terms.map fun t => if termHolds db jid t then (1 : Nat) else 0).prod =
      if terms.all (termHolds db jid) then 1 else 0 := by
  induction terms with
  | nil => simp
  | cons t ts ih =>
    rw [List.map_cons, List.prod_cons, ih, List.all_cons]
    by_cases h : termHolds db jid t = true <;> simp [h]

/-- C5: a bare filter token requires the tag to be present, a
`-`-prefixed token requires it absent, and all terms intersect — under
the unique (job_id, tag) index, `findJobIDsByFilter` returns exactly the
jobs satisfying every term; in particular for jobs tagged {aws}, {gcp},
{aws,fips}, the filter "aws -fips" selects exactly the job tagged only
{aws}. -/
theorem c5_filter_inclusion_exclusion (db : DB) (fstr : String) (terms : List FilterTerm)
    (hp : parseTerms (splitGo ' ' fstr) = .ok terms) (huniq : TagsUnique db) :
    findJobIDsByFilter db fstr =
      .ok ((db.jobs.filter fun j => terms.all (termHolds db j.id)).map (·.id)) ∧
    findJobIDsByFilter dbFilterEx "aws -fips" = .ok [1] := by
  refine ⟨?_, by decide⟩
  unfold findJobIDsByFilter
  rw [hp]
  show Except.ok _ = Except.ok _
  congr 1
  have hcount : ∀ jid : Int, terms.foldl (fun n t => n * termJoinCount db jid t) 1 =
      if terms.all (termHolds db jid) then 1 else 0 := by
    intro jid
    rw [foldl_mul_eq_prod, Nat.one_mul]
    have : terms.map (termJoinCount db jid) =
        terms.map fun t => if termHolds db jid t then (1 : Nat) else 0 :=
      List.map_congr_left fun t _ => termJoinCount_indicator db jid huniq t
    rw [this, prod_termHolds_indicator]
  induction db.jobs with
  | nil => rfl
  | cons j rest ih =>
    rw [List.flatMap_cons, ih, hcount j.id]
    by_cases h : (terms.all (termHolds db j.id)) = true
    · simp [List.filter_cons, h, List.replicate]
    · simp [List.filter_cons, h, List.replicate]

/-- C5 witness. -/
theorem c5_filter_inclusion_exclusion_witness :
    findJobIDsByFilter dbFilterEx "aws -fips" =
      .ok ((dbFilterEx.jobs.filter fun j =>
        [FilterTerm.inc "aws", FilterTerm.exc "fips"].all (termHolds dbFilterEx j.id)).map
          (·.id)) :=
  (c5_filter_inclusion_exclusion dbFilterEx "aws -fips"
    [FilterTerm.inc "aws", FilterTerm.exc "fips"] (by decide) (by decide)).1

theorem parseTerms_error_of_invalid (ts : List String) (t : String)
    (ht : t ∈ ts) (hne : t ≠ "") (hv : validTerm t = false) :
    ∃ e, parseTerms ts = .error e := by
  induction ts with
  | nil => cases ht
  | cons a rest ih =>
    rcases List.mem_cons.mp ht with rfl | hmem
    · have ha : (t == "") = false := beq_eq_false_iff_ne.mpr hne
      simp only [parseTerms, ha, Bool.false_eq_true, if_false, hv, if_neg]
      exact ⟨_, rfl⟩
    · by_cases ha : (a == "") = true
      · simp only [parseTerms, ha, if_true]
        exact ih hmem
      · by_cases hva : validTerm a = true
        · simp only [parseTerms, ha, Bool.false_eq_true, if_false, hva, if_true]
          rcases ih hmem with ⟨e, he⟩
          rw [he]
          exact ⟨e, rfl⟩
        · simp only [parseTerms, ha, Bool.false_eq_true, if_false, hva, if_neg]
          exact ⟨_, rfl⟩

theorem findJobIDsByFilter_error_of_invalid (db : DB) (fstr : String) (t : String)
    (ht : t ∈ splitGo ' ' fstr) (hne : t ≠ "") (hv : validTerm t = false) :
    ∃ e, findJobIDsByFilter db fstr = .error e := by
  rcases parseTerms_error_of_invalid _ t ht hne hv with ⟨e, he⟩
  unfold findJobIDsByFilter
  rw [he]
  exact ⟨e, rfl⟩

/-- C4 counterexample: the filter term "UPPER" contains characters
outside `[a-z0-9.-]`, and the endpoint answers with status 500 (a
5xx-equivalent) and the fixed body "500 internal server error", not a
4xx-equivalent response with a descriptive message. -/
theorem c4_counterexample :
    ServeBuilds dbEmpty 0 "" "UPPER" "" "" = .httpError 500 "500 internal server error" ∧
    ¬(400 ≤ 500 ∧ 500 < 500) := by
  constructor
  · decide
  · intro h
    exact absurd h.2 (by decide)

/-- C4 (amended): a request whose filter contains a term with a
character outside `[a-z0-9.-]` — and more generally any request on
which `BuildStats` fails, including one with an unparsable period
day-count — is answered with the generic 5xx-equivalent
`500 internal server error`; the descriptive error is only logged. -/
theorem c4_malformed_input_yields_500 (db : DB) (now : Int)
    (columnsQ filterQ periodsQ testnameQ : String)
    (h : (∃ t ∈ splitGo ' ' filterQ, t ≠ "" ∧ validTerm t = false) ∨
      ∃ e, BuildStats db (if columnsQ == "" then "sippytags" else columnsQ) filterQ
        (if periodsQ == "" then "7,7" else periodsQ) testnameQ now = .error e) :
    ServeBuilds db now columnsQ filterQ periodsQ testnameQ =
      .httpError 500 "500 internal server error" := by
  have herr : ∃ e, BuildStats db (if columnsQ == "" then "sippytags" else columnsQ) filterQ
      (if periodsQ == "" then "7,7" else periodsQ) testnameQ now = .error e := by
    rcases h with ⟨t, ht, hne, hv⟩ | h
    · have hfne : (filterQ == "") = false := by
        rw [beq_eq_false_iff_ne]
        intro hfe
        subst hfe
        rcases List.mem_singleton.mp ht with rfl
        exact hne rfl
      rcases findJobIDsByFilter_error_of_invalid db filterQ t ht hne hv with ⟨e, he⟩
      unfold BuildStats
      rw [hfne]
      simp only [Bool.false_eq_true, if_false]
      rw [he]
      exact ⟨e, rfl⟩
    · exact h
  rcases herr with ⟨e, he⟩
  simp only [ServeBuilds]
  rw [he]

/-- C4 witness for the amended theorem. -/
theorem c4_malformed_input_yields_500_witness :
    ServeBuilds dbEmpty 7 "name" "ok-tag BAD" "7,7" "" =
      .httpError 500 "500 internal server error" :=
  c4_malformed_input_yields_500 dbEmpty 7 "name" "ok-tag BAD" "7,7" ""
    (Or.inl ⟨"BAD", by decide, by decide, by decide⟩)

theorem buildStatsAfterFilter_testname_missing (db : DB) (jobIDs : Option (List Int))
    (columns periodsS testName : String) (now : Int) (cols : List GroupCol)
    (hcols : parseColumns (splitGo ',' columns) = .ok cols)
    (htn : testName ≠ "") (hft : FindTest db testName = none) :
    buildStatsAfterFilter db jobIDs columns periodsS testName now = .ok { data := [] } := by
  unfold buildStatsAfterFilter
  rw [hcols]
  have : (testName == "") = false := beq_eq_false_iff_ne.mpr htn
  simp only [this, Bool.false_eq_true, if_false]
  rw [hft]

/-- C6 counterexample: with an unknown `columns` value, a request whose
`testname` does not exist in the tests table is answered with an error,
not with the empty result `{data: []}`. -/
theorem c6_counterexample :
    FindTest dbEmpty "nosuch" = none ∧
    BuildStats dbEmpty "bogus" "" "7,7" "nosuch" 0 = .error "unknown column bogus" ∧
    BuildStats dbEmpty "bogus" "" "7,7" "nosuch" 0 ≠ .ok { data := [] } := by
  refine ⟨rfl, by decide, by decide⟩

/-- C6 (amended): a non-empty filter resolving to zero job ids returns
`{data: []}` without error regardless of the rest of the request; a
`testname` missing from the tests table returns `{data: []}` without
error provided the `columns` parameter parses (otherwise the unknown
column error wins, as it is raised first). -/
theorem c6_empty_short_circuit (db : DB) (columns periodsS testName fstr : String) (now : Int) :
    (fstr ≠ "" → findJobIDsByFilter db fstr = .ok [] →
      BuildStats db columns fstr periodsS testName now = .ok { data := [] }) ∧
    (∀ cols, parseColumns (splitGo ',' columns) = .ok cols →
      testName ≠ "" → FindTest db testName = none →
      (fstr = "" ∨ ∃ ids, findJobIDsByFilter db fstr = .ok ids) →
      BuildStats db columns fstr periodsS testName now = .ok { data := [] }) := by
  constructor
  · intro hne hres
    unfold BuildStats
    have : (fstr == "") = false := beq_eq_false_iff_ne.mpr hne
    simp only [this, Bool.false_eq_true, if_false]
    rw [hres]
  · intro cols hcols htn hft hf
    by_cases hfe : fstr = ""
    · subst hfe
      unfold BuildStats
      simp only [beq_self_eq_true, if_true]
      exact buildStatsAfterFilter_testname_missing db none columns periodsS testName now cols
        hcols htn hft
    · have hne : (fstr == "") = false := beq_eq_false_iff_ne.mpr hfe
      rcases hf with hf | ⟨ids, hres⟩
      · exact absurd hf hfe
      · unfold BuildStats
        simp only [hne, Bool.false_eq_true, if_false]
        rw [hres]
        cases ids with
        | nil => rfl
        | cons id rest =>
          exact buildStatsAfterFilter_testname_missing db (some (id :: rest)) columns periodsS
            testName now cols hcols htn hft

/-- C6 witness for the amended theorem. -/
theorem c6_empty_short_circuit_witness :
    BuildStats dbFilterEx "bogus" "nosuchtag" "7,7" "" 0 = .ok { data := [] } ∧
    BuildStats dbEmpty "sippytags" "" "7,7" "zzz" 0 = .ok { data := [] } :=
  ⟨(c6_empty_short_circuit dbFilterEx "bogus" "7,7" "" "nosuchtag" 0).1 (by decide) (by decide),
    (c6_empty_short_circuit dbEmpty "sippytags" "7,7" "zzz" "" 0).2 [GroupCol.sippytags]
      (by decide) (by decide) rfl (Or.inl rfl)⟩

theorem take_sum_le (ps : List Int) (hnn : ∀ p ∈ ps, 0 ≤ p) (a b : Nat) (hab : a ≤ b) :
    (ps.take a).sum ≤ (ps.take b).sum := by
  rcases Nat.exists_eq_add_of_le hab with ⟨n, rfl⟩
  rw [List.take_add, List.sum_append]
  have h0 : 0 ≤ ((ps.drop a).take n).sum :=
    List.sum_nonneg fun x hx => hnn x (List.mem_of_mem_drop (List.mem_of_mem_take hx))
  omega

theorem take_sum_pos (ps : List Int) (hpos : ∀ p ∈ ps, 0 < p) (j : Nat) (h1 : 1 ≤ j)
    (h2 : 0 < ps.length) : 0 < (ps.take j).sum := by
  cases ps with
  | nil => simp at h2
  | cons q rest =>
    have hq : 0 < q := hpos q (List.mem_cons_self q rest)
    have hle : ((q :: rest).take 1).sum ≤ ((q :: rest).take j).sum :=
      take_sum_le _ (fun p hp => Int.le_of_lt (hpos p hp)) 1 j h1
    have h1s : ((q :: rest).take 1).sum = q := by simp
    omega

theorem wrap64_eq_self (x : Int) (h1 : -(2 ^ 63) ≤ x) (h2 : x < 2 ^ 63) : wrap64 x = x := by
  unfold wrap64
  have h : (x + 2 ^ 63) % 2 ^ 64 = x + 2 ^ 63 := Int.emod_eq_of_lt (by omega) (by omega)
  omega

/-- When every intermediate value stays inside the `int64` range, the
wrapped computation of `(now - 86400*d) * 1000` coincides with the
exact one. -/
theorem wrapLo_eq (now d : Int) (hd : 0 ≤ d) (hnow0 : 0 ≤ now)
    (hnow1 : 1000 * now < 2 ^ 63) (hb : 86400000 * d < 2 ^ 63) :
    wrap64 (wrap64 (now - wrap64 (86400 * d)) * 1000) = (now - 86400 * d) * 1000 := by
  have h1 : wrap64 (86400 * d) = 86400 * d := wrap64_eq_self _ (by omega) (by omega)
  rw [h1]
  have h2 : wrap64 (now - 86400 * d) = now - 86400 * d :=
    wrap64_eq_self _ (by omega) (by omega)
  rw [h2]
  have he : (now - 86400 * d) * 1000 = 1000 * now - 86400000 * d := by ring
  rw [he]
  exact wrap64_eq_self _ (by omega) (by omega)

/-- Layout of the generated windows when every intermediate `int64`
computation stays in range (no wrap-around): starting from a running
total `days ≥ 0` over positive periods, window `i` spans from
`now - (days + sum of the first i+1 periods)` days up to
`now - (days + sum of the first i periods)` days (no upper bound when
that total is zero, i.e. for the very first window). -/
theorem mkWindows_layout (now : Int) (ps : List Int) (days : Int) (i : Nat) (w : Window)
    (hpos : ∀ p ∈ ps, 0 < p) (hd : 0 ≤ days) (hnow0 : 0 ≤ now)
    (hnow1 : 1000 * now < 2 ^ 63) (hb : 86400000 * (days + ps.sum) < 2 ^ 63)
    (hw : (mkWindows now ps days)[i]? = some w) :
    w.lo = (now - 86400 * (days + (ps.take (i + 1)).sum)) * 1000 ∧
    w.hi = (if days + (ps.take i).sum = 0 then none
            else some ((now - 86400 * (days + (ps.take i).sum)) * 1000)) := by
  induction ps generalizing days i with
  | nil => simp [mkWindows] at hw
  | cons p rest ih =>
    have hp : 0 < p := hpos p (List.mem_cons_self p rest)
    have hrest : 0 ≤ rest.sum :=
      List.sum_nonneg fun x hx => Int.le_of_lt (hpos x (List.mem_cons.mpr (Or.inr hx)))
    have hsumc : (p :: rest).sum = p + rest.sum := by simp
    rw [hsumc] at hb
    have hdp : wrap64 (days + p) = days + p := wrap64_eq_self _ (by omega) (by omega)
    rw [mkWindows, hdp] at hw
    have htake1 : ((p :: rest).take (0 + 1)).sum = p := by simp
    have htake0 : ((p :: rest).take 0).sum = 0 := by simp
    cases i with
    | zero =>
      rw [List.getElem?_cons_zero, Option.some_inj] at hw
      subst hw
      rw [htake1, htake0]
      by_cases h0 : days = 0
      · subst h0
        have hlo : wrap64 (wrap64 (now - wrap64 (86400 * p)) * 1000)
            = (now - 86400 * p) * 1000 :=
          wrapLo_eq now p (by omega) hnow0 hnow1 (by omega)
        refine ⟨?_, ?_⟩ <;> simp [hlo]
      · have hne : (days == 0) = false := beq_eq_false_iff_ne.mpr h0
        rw [hne]
        simp only [Bool.false_eq_true, if_false]
        have hhi : wrap64 (wrap64 (now - wrap64 (86400 * days)) * 1000)
            = (now - 86400 * days) * 1000 :=
          wrapLo_eq now days hd hnow0 hnow1 (by omega)
        refine ⟨wrapLo_eq now (days + p) (by omega) hnow0 hnow1 (by omega), ?_⟩
        rw [if_neg (by omega)]
        show some (wrap64 (wrap64 (now - wrap64 (86400 * days)) * 1000)) = _
        rw [hhi]
        norm_num
    | succ k =>
      rw [List.getElem?_cons_succ] at hw
      have hposr : ∀ q ∈ rest, 0 < q := fun q hq => hpos q (List.mem_cons.mpr (Or.inr hq))
      rcases ih (days + p) k hposr (by omega) (by omega) hw with ⟨hlo, hhi⟩
      constructor
      · rw [hlo, List.take_succ_cons, List.sum_cons]
        have heq : days + p + (rest.take (k + 1)).sum = days + (p + (rest.take (k + 1)).sum) := by
          omega
        rw [heq]
      · rw [hhi, List.take_succ_cons, List.sum_cons]
        have heq : days + p + (rest.take k).sum = days + (p + (rest.take k).sum) := by omega
        rw [heq]

/-- C1 counterexample: for the day-counts `[0, 7]`, a build timestamped
exactly "now" is counted in both windows' SUM columns — the two
requested windows overlap, contradicting "the windows do not overlap".
(The running `days` total is still zero when the second period is
processed, so the second window also gets no upper bound.) -/
theorem c1_counterexample :
    countedIn 8640000 "0,7" 0 8640000000 = true ∧
    countedIn 8640000 "0,7" 1 8640000000 = true := by decide

/-- C1 (amended): for periods `[7,7]`, a build timestamped 1 day ago is
counted only in window 0's SUM column, one 8 days ago only in window 1's,
one 15 days ago in neither; in general, when every requested day-count
is positive and the total is small enough that the millisecond bound
arithmetic stays inside `int64` (no wrap-around), the windows are laid
out back-to-back from "now" in request order (window 0 reaching from
now−N0 days onward with no upper bound, window i from now−(N0+⋯+Ni) up
to now−(N0+⋯+N(i−1)) days), and no two windows overlap.  (With a zero
or negative day-count in the list the no-overlap guarantee fails, see
the counterexample; with astronomically large day-counts the `int64`
products wrap and the layout formula fails as well.) -/
theorem c1_window_partition (now : Int) (ps : List Int) (hpos : ∀ p ∈ ps, 0 < p)
    (hnow0 : 0 ≤ now) (hnow1 : 1000 * now < 2 ^ 63)
    (hsum : 86400000 * ps.sum < 2 ^ 63)
    (i j : Nat) (wi wj : Window) (ts : Int) :
    (countedIn now "7,7" 0 ((now - 86400) * 1000) = true ∧
     countedIn now "7,7" 1 ((now - 86400) * 1000) = false ∧
     countedIn now "7,7" 0 ((now - 8 * 86400) * 1000) = false ∧
     countedIn now "7,7" 1 ((now - 8 * 86400) * 1000) = true ∧
     countedIn now "7,7" 0 ((now - 15 * 86400) * 1000) = false ∧
     countedIn now "7,7" 1 ((now - 15 * 86400) * 1000) = false) ∧
    ((mkWindows now ps 0)[i]? = some wi →
      wi.lo = (now - 86400 * ((ps.take (i + 1)).sum)) * 1000 ∧
      wi.hi = (if i = 0 then none
               else some ((now - 86400 * ((ps.take i).sum)) * 1000))) ∧
    (i ≠ j → (mkWindows now ps 0)[i]? = some wi → (mkWindows now ps 0)[j]? = some wj →
      ¬(windowHit wi ts = true ∧ windowHit wj ts = true)) := by
  have hlen : ∀ (qs : List Int) (d : Int), (mkWindows now qs d).length = qs.length := by
    intro qs
    induction qs with
    | nil => intro d; rfl
    | cons q rest ih => intro d; simp [mkWindows, ih]
  have hlayout : ∀ (k : Nat) (w : Window), (mkWindows now ps 0)[k]? = some w →
      w.lo = (now - 86400 * ((ps.take (k + 1)).sum)) * 1000 ∧
      w.hi = (if k = 0 then none
              else some ((now - 86400 * ((ps.take k).sum)) * 1000)) := by
    intro k w hw
    have hk : k < ps.length := by
      have := (List.getElem?_eq_some.mp hw).1
      rwa [hlen] at this
    have := mkWindows_layout now ps 0 k w hpos le_rfl hnow0 hnow1 (by omega) hw
    rcases this with ⟨hlo, hhi⟩
    constructor
    · rw [hlo]; ring_nf
    · rw [hhi]
      by_cases h0 : k = 0
      · subst h0
        simp
      · have h1 : 1 ≤ k := Nat.one_le_iff_ne_zero.mpr h0
        have hsum : 0 < (ps.take k).sum := take_sum_pos ps hpos k h1 (by omega)
        rw [if_neg (by omega), if_neg h0]
        norm_num
  have hconc : countedIn now "7,7" 0 ((now - 86400) * 1000) = true ∧
      countedIn now "7,7" 1 ((now - 86400) * 1000) = false ∧
      countedIn now "7,7" 0 ((now - 8 * 86400) * 1000) = false ∧
      countedIn now "7,7" 1 ((now - 8 * 86400) * 1000) = true ∧
      countedIn now "7,7" 0 ((now - 15 * 86400) * 1000) = false ∧
      countedIn now "7,7" 1 ((now - 15 * 86400) * 1000) = false := by
    have e7 : wrap64 (wrap64 (now - wrap64 (86400 * 7)) * 1000) = (now - 86400 * 7) * 1000 :=
      wrapLo_eq now 7 (by norm_num) hnow0 hnow1 (by norm_num)
    have e14 : wrap64 (wrap64 (now - wrap64 (86400 * 14)) * 1000) = (now - 86400 * 14) * 1000 :=
      wrapLo_eq now 14 (by norm_num) hnow0 hnow1 (by norm_num)
    have hpp : parsePeriods now "7,7" =
        .ok ([{ lo := (now - 86400 * 7) * 1000, hi := none },
              { lo := (now - 86400 * 14) * 1000, hi := some ((now - 86400 * 7) * 1000) }],
             (now - 86400 * 14) * 1000) := by
      have hraw : parsePeriods now "7,7" =
          .ok ([{ lo := wrap64 (wrap64 (now - wrap64 (86400 * 7)) * 1000), hi := none },
                { lo := wrap64 (wrap64 (now - wrap64 (86400 * 14)) * 1000),
                  hi := some (wrap64 (wrap64 (now - wrap64 (86400 * 7)) * 1000)) }],
               wrap64 (wrap64 (now - wrap64 (86400 * 14)) * 1000)) := rfl
      rw [hraw, e7, e14]
    refine ⟨?_, ?_, ?_, ?_, ?_, ?_⟩ <;>
      · unfold countedIn
        rw [hpp]
        simp only [List.getElem?_cons_zero, List.getElem?_cons_succ, windowHit]
        simp only [Bool.and_eq_true, decide_eq_true_eq, Bool.and_eq_false_iff,
          decide_eq_false_iff_not, and_true, true_and, or_false, false_or]
        omega
  refine ⟨hconc, hlayout i wi, ?_⟩
  -- no overlap between two distinct windows
  have main : ∀ (a b : Nat) (wa wb : Window), a < b →
      (mkWindows now ps 0)[a]? = some wa → (mkWindows now ps 0)[b]? = some wb →
      ¬(windowHit wa ts = true ∧ windowHit wb ts = true) := by
    intro a b wa wb hab hwa hwb ⟨hha, hhb⟩
    have hb : b < ps.length := by
      have := (List.getElem?_eq_some.mp hwb).1
      rwa [hlen] at this
    rcases hlayout a wa hwa with ⟨hloa, _⟩
    rcases hlayout b wb hwb with ⟨hlob, hhib⟩
    have hb0 : b ≠ 0 := by omega
    rw [if_neg hb0] at hhib
    -- window b is bounded above by now − (sum of first b periods)
    have hub : ts < (now - 86400 * ((ps.take b).sum)) * 1000 := by
      unfold windowHit at hhb
      rw [hhib, Bool.and_eq_true, decide_eq_true_eq] at hhb
      have := hhb.2
      simpa [decide_eq_true_eq] using this
    -- window a reaches down only to now − (sum of first a+1 periods)
    have hlb : (now - 86400 * ((ps.take (a + 1)).sum)) * 1000 ≤ ts := by
      unfold windowHit at hha
      rw [Bool.and_eq_true, decide_eq_true_eq] at hha
      rw [hloa] at hha
      exact hha.1
    have hmono : (ps.take (a + 1)).sum ≤ (ps.take b).sum :=
      take_sum_le ps (fun p hp => Int.le_of_lt (hpos p hp)) (a + 1) b (by omega)
    omega
  intro hij hwi hwj hcontra
  rcases Nat.lt_or_ge i j with hlt | hge
  · exact main i j wi wj hlt hwi hwj hcontra
  · have hlt : j < i := by omega
    exact main j i wj wi hlt hwj hwi ⟨hcontra.2, hcontra.1⟩

/-- C1 witness for the amended theorem. -/
theorem c1_window_partition_witness :
    countedIn 8640000 "7,7" 0 ((8640000 - 86400) * 1000) = true ∧
    windowHit { lo := (8640000 - 86400 * 7) * 1000, hi := none }
        ((8640000 - 8 * 86400) * 1000) = false := by
  have h := c1_window_partition 8640000 [7, 7] (by decide) (by decide) (by decide)
    (by decide) 0 1
    { lo := (8640000 - 86400 * 7) * 1000, hi := none }
    { lo := (8640000 - 86400 * 14) * 1000, hi := some ((8640000 - 86400 * 7) * 1000) }
    ((8640000 - 8 * 86400) * 1000)
  refine ⟨h.1.1, ?_⟩
  have hno := h.2.2 (by decide) (by decide) (by decide)
  by_contra hb
  rw [Bool.not_eq_false] at hb
  exact hno ⟨hb, by decide⟩

/-! ## Totals algebra: componentwise sums of per-window counter vectors -/

theorem addSV_assoc (a b c : StatsValues) : addSV (addSV a b) c = addSV a (addSV b c) := by
  simp [addSV, Int.add_assoc]

theorem addSV_comm (a b : StatsValues) : addSV a b = addSV b a := by
  simp [addSV, Int.add_comm]

theorem addVals_assoc (a b c : List StatsValues) :
    addVals (addVals a b) c = addVals a (addVals b c) := by
  unfold addVals
  induction a generalizing b c with
  | nil => rfl
  | cons x xs ih =>
    cases b with
    | nil => rfl
    | cons y ys =>
      cases c with
      | nil => rfl
      | cons z zs => simp [List.zipWith, addSV_assoc, ih]

theorem addVals_comm (a b : List StatsValues) : addVals a b = addVals b a := by
  unfold addVals
  induction a generalizing b with
  | nil => cases b <;> rfl
  | cons x xs ih =>
    cases b with
    | nil => rfl
    | cons y ys => simp [List.zipWith, addSV_comm, ih]

theorem addVals_length (a b : List StatsValues) :
    (addVals a b).length = min a.length b.length := by
  simp [addVals]

theorem zeroVals_length (n : Nat) : (zeroVals n).length = n := by
  simp [zeroVals]

theorem addVals_zero_left (n : Nat) (a : List StatsValues) (h : a.length = n) :
    addVals (zeroVals n) a = a := by
  unfold addVals zeroVals
  induction a generalizing n with
  | nil => subst h; rfl
  | cons x xs ih =>
    subst h
    simp only [List.length_cons, List.replicate, List.zipWith]
    rw [ih xs.length rfl]
    simp [zeroSV, addSV]

theorem addVals_zero_right (n : Nat) (a : List StatsValues) (h : a.length = n) :
    addVals a (zeroVals n) = a := by
  rw [addVals_comm]
  exact addVals_zero_left n a h

theorem sumVals_nil (n : Nat) : sumVals n [] = zeroVals n := rfl

theorem sumVals_cons (n : Nat) (x : List StatsValues) (l : List (List StatsValues)) :
    sumVals n (x :: l) = addVals x (sumVals n l) := rfl

theorem sumVals_length (n : Nat) (l : List (List StatsValues))
    (h : ∀ x ∈ l, x.length = n) : (sumVals n l).length = n := by
  induction l with
  | nil => simp [sumVals, zeroVals]
  | cons x xs ih =>
    rw [sumVals_cons, addVals_length, h x (List.mem_cons_self x xs),
      ih fun y hy => h y (List.mem_cons_of_mem x hy)]
    exact Nat.min_self n

theorem sumVals_append (n : Nat) (l1 l2 : List (List StatsValues))
    (h2 : ∀ x ∈ l2, x.length = n) :
    sumVals n (l1 ++ l2) = addVals (sumVals n l1) (sumVals n l2) := by
  induction l1 with
  | nil =>
    rw [List.nil_append, sumVals_nil, addVals_zero_left n _ (sumVals_length n l2 h2)]
  | cons x xs ih =>
    rw [List.cons_append, sumVals_cons, sumVals_cons, ih, addVals_assoc]

theorem accumStatus_length (isTest : Bool) (s : Int) (sums : List Int) (vals : List StatsValues)
    (n : Nat) (hs : sums.length = n) (hv : vals.length = n) :
    (accumStatus isTest s sums vals).length = n := by
  unfold accumStatus
  cases statusKind isTest s with
  | none => exact hv
  | some k => simp [hs, hv]

theorem rowContrib_length (isTest : Bool) (ws : List Window) (r : QRow) :
    (rowContrib isTest ws r).length = ws.length := by
  unfold rowContrib
  exact accumStatus_length _ _ _ _ _ (by simp) (zeroVals_length _)

theorem zipWith_bump_split (k : CounterKind) (vs : List StatsValues) (ss : List Int) :
    List.zipWith (bumpSV k) vs ss =
      List.zipWith addSV vs (List.zipWith (bumpSV k) (List.replicate vs.length zeroSV) ss) := by
  induction vs generalizing ss with
  | nil => cases ss <;> rfl
  | cons v rest ih =>
    cases ss with
    | nil => rfl
    | cons s0 ss2 =>
      simp only [List.length_cons, List.replicate, List.zipWith]
      rw [ih]
      congr 1
      cases k <;> simp [bumpSV, addSV, zeroSV]

/-- `accumStatus` splits off its base vector: accumulating into `vals`
is the same as adding the accumulation-into-zero to `vals`. -/
theorem accumStatus_eq_addVals (isTest : Bool) (s : Int) (sums : List Int)
    (vals : List StatsValues) (_h : sums.length = vals.length) :
    accumStatus isTest s sums vals =
      addVals vals (accumStatus isTest s sums (zeroVals vals.length)) := by
  unfold accumStatus
  cases statusKind isTest s with
  | none => rw [addVals_zero_right _ _ rfl]
  | some k =>
    show List.zipWith (bumpSV k) vals sums =
      addVals vals (List.zipWith (bumpSV k) (zeroVals vals.length) sums)
    exact zipWith_bump_split k vals sums

/-- Pointwise addition of two per-window integer vectors. -/
theorem map_add_eq_zipWith {α : Type} (l : List α) (f g : α → Int) :
    l.map (fun x => f x + g x) = List.zipWith (· + ·) (l.map f) (l.map g) := by
  induction l with
  | nil => rfl
  | cons x xs ih =>
    simp only [List.map_cons, List.zipWith_cons_cons]
    rw [ih]

theorem zipWith_bump_add (k : CounterKind) (u : List Int) :
    ∀ v : List Int, u.length = v.length →
    List.zipWith (bumpSV k) (List.replicate u.length zeroSV) (List.zipWith (· + ·) u v) =
      List.zipWith addSV (List.zipWith (bumpSV k) (List.replicate u.length zeroSV) u)
        (List.zipWith (bumpSV k) (List.replicate u.length zeroSV) v) := by
  induction u with
  | nil =>
    intro v h
    cases v with
    | nil => rfl
    | cons y ys => exact absurd h (by simp)
  | cons x xs ih =>
    intro v h
    cases v with
    | nil => exact absurd h (by simp)
    | cons y ys =>
      simp only [List.length_cons, List.replicate, List.zipWith]
      rw [ih ys (by simpa using h)]
      congr 1
      cases k <;> simp [bumpSV, addSV, zeroSV]

/-- Linearity of the zero-based accumulation in the SUM vector. -/
theorem accumStatus_add_sums (isTest : Bool) (s : Int) (u v : List Int) (n : Nat)
    (hu : u.length = n) (hv : v.length = n) :
    accumStatus isTest s (List.zipWith (· + ·) u v) (zeroVals n) =
      addVals (accumStatus isTest s u (zeroVals n)) (accumStatus isTest s v (zeroVals n)) := by
  subst hu
  unfold accumStatus
  cases statusKind isTest s with
  | none => rw [addVals_zero_left u.length _ (zeroVals_length u.length)]
  | some k =>
    show List.zipWith (bumpSV k) (List.replicate u.length zeroSV) (List.zipWith (· + ·) u v) =
      addVals (List.zipWith (bumpSV k) (List.replicate u.length zeroSV) u)
        (List.zipWith (bumpSV k) (List.replicate u.length zeroSV) v)
    exact zipWith_bump_add k u v hv.symm

theorem zipWith_bump_zero (k : CounterKind) (ws : List Window) :
    List.zipWith (bumpSV k) (List.replicate ws.length zeroSV) (ws.map fun _ => (0 : Int)) =
      List.replicate ws.length zeroSV := by
  induction ws with
  | nil => rfl
  | cons w rest ih =>
    simp only [List.length_cons, List.map_cons, List.replicate, List.zipWith]
    rw [ih]
    cases k <;> simp [bumpSV, zeroSV]

theorem accumStatus_zero_sums (isTest : Bool) (s : Int) (ws : List Window) :
    accumStatus isTest s (ws.map fun _ => (0 : Int)) (zeroVals ws.length) =
      zeroVals ws.length := by
  unfold accumStatus
  cases statusKind isTest s with
  | none => rfl
  | some k =>
    show List.zipWith (bumpSV k) (zeroVals ws.length) (ws.map fun _ => (0 : Int)) =
      zeroVals ws.length
    exact zipWith_bump_zero k ws

theorem foldInsert_length (isTest : Bool) (n : Nat) (gr : GRow) (data : List StatsRow)
    (hd : ∀ r ∈ data, r.values.length = n) (hg : gr.sums.length = n) :
    ∀ r ∈ foldInsert isTest n gr data, r.values.length = n := by
  induction data with
  | nil =>
    intro r hr
    rcases List.mem_singleton.mp hr with rfl
    exact accumStatus_length _ _ _ _ _ hg (zeroVals_length n)
  | cons x rest ih =>
    intro r hr
    unfold foldInsert at hr
    by_cases hk : (rowKeyString x.columns == rowKeyString gr.vals) = true
    · rw [if_pos hk] at hr
      rcases List.mem_cons.mp hr with rfl | hmem
      · exact accumStatus_length _ _ _ _ _ hg (hd x (List.mem_cons_self _ _))
      · exact hd r (List.mem_cons_of_mem _ hmem)
    · rw [if_neg hk] at hr
      rcases List.mem_cons.mp hr with rfl | hmem
      · exact hd r (List.mem_cons_self _ _)
      · exact ih (fun y hy => hd y (List.mem_cons_of_mem _ hy)) r hmem

theorem foldInsert_totals (isTest : Bool) (n : Nat) (gr : GRow) (data : List StatsRow)
    (hd : ∀ r ∈ data, r.values.length = n) (hg : gr.sums.length = n) :
    sumVals n ((foldInsert isTest n gr data).map (·.values)) =
      addVals (sumVals n (data.map (·.values)))
        (accumStatus isTest gr.status gr.sums (zeroVals n)) := by
  have hlenC : (accumStatus isTest gr.status gr.sums (zeroVals n)).length = n :=
    accumStatus_length _ _ _ _ _ hg (zeroVals_length n)
  induction data with
  | nil =>
    show sumVals n [accumStatus isTest gr.status gr.sums (zeroVals n)] = _
    rw [sumVals_cons, sumVals_nil, addVals_zero_right n _ hlenC, List.map_nil, sumVals_nil,
      addVals_zero_left n _ hlenC]
  | cons x rest ih =>
    unfold foldInsert
    have hx : x.values.length = n := hd x (List.mem_cons_self _ _)
    by_cases hk : (rowKeyString x.columns == rowKeyString gr.vals) = true
    · rw [if_pos hk]
      simp only [List.map_cons, sumVals_cons]
      have hsplit : accumStatus isTest gr.status gr.sums x.values =
          addVals x.values (accumStatus isTest gr.status gr.sums (zeroVals n)) := by
        have := accumStatus_eq_addVals isTest gr.status gr.sums x.values (by rw [hx, hg])
        rwa [hx] at this
      rw [hsplit, addVals_assoc, addVals_assoc]
      congr 1
      exact addVals_comm _ _
    · rw [if_neg hk]
      simp only [List.map_cons, sumVals_cons]
      rw [ih fun y hy => hd y (List.mem_cons_of_mem _ hy), ← addVals_assoc]

theorem foldl_foldInsert_totals (isTest : Bool) (n : Nat) (grs : List GRow) :
    ∀ data : List StatsRow,
      (∀ gr ∈ grs, gr.sums.length = n) → (∀ r ∈ data, r.values.length = n) →
      sumVals n ((grs.foldl (fun d g => foldInsert isTest n g d) data).map (·.values)) =
        addVals (sumVals n (data.map (·.values)))
          (sumVals n (grs.map fun gr => accumStatus isTest gr.status gr.sums (zeroVals n))) := by
  induction grs with
  | nil =>
    intro data _ hd
    simp only [List.foldl_nil, List.map_nil, sumVals_nil]
    rw [addVals_zero_right n _ (sumVals_length n _ ?_)]
    intro x hx
    rcases List.mem_map.mp hx with ⟨r, hr, rfl⟩
    exact hd r hr
  | cons g rest ih =>
    intro data hg hd
    rw [List.foldl_cons,
      ih (foldInsert isTest n g data)
        (fun gr hgr => hg gr (List.mem_cons_of_mem _ hgr))
        (foldInsert_length isTest n g data hd (hg g (List.mem_cons_self _ _))),
      foldInsert_totals isTest n g data hd (hg g (List.mem_cons_self _ _)),
      List.map_cons, sumVals_cons, addVals_assoc]

theorem foldRows_totals (isTest : Bool) (n : Nat) (grs : List GRow)
    (hg : ∀ gr ∈ grs, gr.sums.length = n) :
    totals n (foldRows isTest n grs) =
      sumVals n (grs.map fun gr => accumStatus isTest gr.status gr.sums (zeroVals n)) := by
  unfold totals foldRows
  rw [foldl_foldInsert_totals isTest n grs [] hg (by intro r hr; cases hr)]
  simp only [List.map_nil, sumVals_nil]
  refine addVals_zero_left n _ (sumVals_length n _ ?_)
  intro x hx
  rcases List.mem_map.mp hx with ⟨gr, hgr, rfl⟩
  exact accumStatus_length _ _ _ _ _ (hg gr hgr) (zeroVals_length n)

theorem beq_symm_eq {α : Type} [BEq α] [LawfulBEq α] (a b : α) : (a == b) = (b == a) := by
  by_cases h : a = b
  · subst h; rfl
  · rw [beq_eq_false_iff_ne.mpr h, beq_eq_false_iff_ne.mpr (Ne.symm h)]

theorem firstOccur_nil {α : Type} [BEq α] : firstOccur ([] : List α) = [] := rfl

theorem firstOccur_cons {α : Type} [BEq α] (a : α) (l : List α) :
    firstOccur (a :: l) = a :: firstOccur (l.filter fun x => !(a == x)) := by
  show a :: firstOccurFuel l.length (l.filter fun x => !(a == x)) = _
  congr 1
  exact firstOccurFuel_irrel l.length _ _ (List.length_filter_le _ _) le_rfl

theorem mem_of_mem_firstOccur {α : Type} [BEq α] :
    ∀ (fuel : Nat) (l : List α), l.length ≤ fuel → ∀ x ∈ firstOccur l, x ∈ l := by
  intro fuel
  induction fuel with
  | zero =>
    intro l hl x hx
    have : l = [] := List.length_eq_zero.mp (Nat.le_zero.mp hl)
    subst this
    rw [firstOccur_nil] at hx
    cases hx
  | succ fuel ih =>
    intro l hl x hx
    cases l with
    | nil =>
      rw [firstOccur_nil] at hx
      cases hx
    | cons a rest =>
      rw [firstOccur_cons] at hx
      rcases List.mem_cons.mp hx with rfl | hmem
      · exact List.mem_cons_self _ _
      · have hfl : (rest.filter fun y => !(a == y)).length ≤ fuel :=
          le_trans (List.length_filter_le _ _) (by simpa using hl)
        exact List.mem_cons_of_mem _
          (List.mem_of_mem_filter (ih (rest.filter fun y => !(a == y)) hfl x hmem))

/-- Contribution of one SQL group: the per-window SUMs over its fiber
accumulate exactly like the sum of the fiber rows' contributions. -/
theorem fiber_contrib (isTest : Bool) (ws : List Window) (st : Int) :
    ∀ fiber : List QRow, (∀ r ∈ fiber, rowStatus isTest r = st) →
      accumStatus isTest st
        (ws.map fun w => (((fiber.countP fun r2 => windowHit w r2.b.timestamp) : Nat) : Int))
        (zeroVals ws.length) =
      sumVals ws.length (fiber.map (rowContrib isTest ws)) := by
  intro fiber
  induction fiber with
  | nil =>
    intro _
    simp only [List.countP_nil, Nat.cast_zero]
    rw [accumStatus_zero_sums]
    rfl
  | cons r rest ih =>
    intro hst
    have hr : rowStatus isTest r = st := hst r (List.mem_cons_self _ _)
    have hmap : (ws.map fun w =>
          ((((r :: rest).countP fun r2 => windowHit w r2.b.timestamp) : Nat) : Int)) =
        List.zipWith (· + ·)
          (ws.map fun w => (((rest.countP fun r2 => windowHit w r2.b.timestamp) : Nat) : Int))
          (ws.map fun w => if windowHit w r.b.timestamp then (1 : Int) else 0) := by
      rw [← map_add_eq_zipWith]
      apply List.map_congr_left
      intro w _
      rw [List.countP_cons]
      push_cast
      rfl
    rw [hmap, accumStatus_add_sums isTest st _ _ ws.length (by simp) (by simp),
      ih fun r2 h2 => hst r2 (List.mem_cons_of_mem _ h2), List.map_cons, sumVals_cons,
      addVals_comm]
    congr 1
    unfold rowContrib
    rw [hr]

theorem sumVals_map_filter_partition {α : Type} (n : Nat) (f : α → List StatsValues)
    (hf : ∀ x, (f x).length = n) (p : α → Bool) (l : List α) :
    sumVals n (l.map f) =
      addVals (sumVals n ((l.filter p).map f))
        (sumVals n ((l.filter fun x => !(p x)).map f)) := by
  have hlen : ∀ m : List α, ∀ x ∈ m.map f, x.length = n := by
    intro m x hx
    rcases List.mem_map.mp hx with ⟨y, _, rfl⟩
    exact hf y
  induction l with
  | nil =>
    simp only [List.filter_nil, List.map_nil, sumVals_nil]
    rw [addVals_zero_left n _ (zeroVals_length n)]
  | cons x rest ih =>
    by_cases hp : p x = true
    · rw [List.filter_cons_of_pos hp, List.filter_cons_of_neg (by simp [hp]), List.map_cons,
        List.map_cons, sumVals_cons, sumVals_cons, ih, ← addVals_assoc]
    · rw [List.filter_cons_of_neg hp, List.filter_cons_of_pos (by simp [hp]), List.map_cons,
        List.map_cons, sumVals_cons, sumVals_cons, ih, ← addVals_assoc,
        addVals_comm (f x) (sumVals n ((rest.filter p).map f)), addVals_assoc]

theorem groupRows_sums_length (cols : List GroupCol) (isTest : Bool) (ws : List Window)
    (rows : List QRow) : ∀ gr ∈ groupRows cols isTest ws rows, gr.sums.length = ws.length := by
  intro gr hgr
  rcases List.mem_map.mp hgr with ⟨k, _, rfl⟩
  simp [mkGRow]

/-- Fiber partition along the GROUP BY keys: summing the grouped rows'
contributions equals summing the raw rows' contributions. -/
theorem groupRows_totals (cols : List GroupCol) (isTest : Bool) (ws : List Window) :
    ∀ (fuel : Nat) (rows : List QRow), rows.length ≤ fuel →
      sumVals ws.length ((groupRows cols isTest ws rows).map fun gr =>
        accumStatus isTest gr.status gr.sums (zeroVals ws.length)) =
      sumVals ws.length (rows.map (rowContrib isTest ws)) := by
  intro fuel
  induction fuel with
  | zero =>
    intro rows hr
    have : rows = [] := List.length_eq_zero.mp (Nat.le_zero.mp hr)
    subst this
    unfold groupRows
    rw [List.map_nil, firstOccur_nil, List.map_nil]
    rfl
  | succ fuel ih =>
    intro rows hr
    cases rows with
    | nil =>
      unfold groupRows
      rw [List.map_nil, firstOccur_nil, List.map_nil]
      rfl
    | cons r0 rest =>
      have hrest : rest.length ≤ fuel := by simpa using hr
      -- step the grouping
      have hstep : groupRows cols isTest ws (r0 :: rest) =
          mkGRow cols isTest ws (r0 :: rest) (rowKey cols isTest r0) ::
          (firstOccur ((rest.map (rowKey cols isTest)).filter
            fun x => !(rowKey cols isTest r0 == x))).map
              (mkGRow cols isTest ws (r0 :: rest)) := by
        unfold groupRows
        rw [List.map_cons, firstOccur_cons, List.map_cons]
      -- the tail key list is the key list of rest2
      have hkeys : (rest.map (rowKey cols isTest)).filter
            (fun x => !(rowKey cols isTest r0 == x)) =
          (rest.filter fun r =>
            !(rowKey cols isTest r == rowKey cols isTest r0)).map (rowKey cols isTest) := by
        rw [List.filter_map]
        congr 1
        apply List.filter_congr
        intro r _
        simp only [Function.comp]
        rw [beq_symm_eq]
      -- a tail key has the same fiber in (r0 :: rest) and in rest2
      have hfibers : ∀ k ∈ firstOccur ((rest.filter fun r =>
            !(rowKey cols isTest r == rowKey cols isTest r0)).map (rowKey cols isTest)),
          (r0 :: rest).filter (fun r => rowKey cols isTest r == k) =
            (rest.filter fun r =>
              !(rowKey cols isTest r == rowKey cols isTest r0)).filter
                (fun r => rowKey cols isTest r == k) := by
        intro k hk
        have hkmem : k ∈ (rest.filter fun r =>
            !(rowKey cols isTest r == rowKey cols isTest r0)).map (rowKey cols isTest) :=
          mem_of_mem_firstOccur _ _ le_rfl k hk
        have hkne : ¬(k = rowKey cols isTest r0) := by
          rcases List.mem_map.mp hkmem with ⟨rk, hrkmem, rfl⟩
          have h2 := (List.mem_filter.mp hrkmem).2
          rw [Bool.not_eq_eq_eq_not, Bool.not_true, beq_eq_false_iff_ne] at h2
          exact h2
        have hdrop : (rowKey cols isTest r0 == k) = false :=
          beq_eq_false_iff_ne.mpr fun h => hkne h.symm
        rw [List.filter_cons_of_neg (by rw [hdrop]; exact Bool.false_ne_true),
          List.filter_filter]
        apply List.filter_congr
        intro r _
        by_cases hreq : (rowKey cols isTest r == k) = true
        · rw [hreq]
          have hnot : (!(rowKey cols isTest r == rowKey cols isTest r0)) = true := by
            rw [Bool.not_eq_eq_eq_not, Bool.not_true, beq_eq_false_iff_ne]
            rw [beq_iff_eq] at hreq
            rw [hreq]
            exact hkne
          rw [hnot]
          rfl
        · rw [Bool.not_eq_true] at hreq
          rw [hreq, Bool.false_and]
      -- head group = sum over its fiber
      have hhead : accumStatus isTest
            (mkGRow cols isTest ws (r0 :: rest) (rowKey cols isTest r0)).status
            (mkGRow cols isTest ws (r0 :: rest) (rowKey cols isTest r0)).sums
            (zeroVals ws.length) =
          sumVals ws.length
            (((r0 :: rest).filter fun r =>
              rowKey cols isTest r == rowKey cols isTest r0).map (rowContrib isTest ws)) := by
        show accumStatus isTest (rowKey cols isTest r0).2 _ (zeroVals ws.length) = _
        apply fiber_contrib
        intro r hrm
        have := (List.mem_filter.mp hrm).2
        rw [beq_iff_eq] at this
        calc rowStatus isTest r = (rowKey cols isTest r).2 := rfl
          _ = (rowKey cols isTest r0).2 := by rw [this]
      -- tail groups = grouping of rest2
      have htail : (firstOccur ((rest.map (rowKey cols isTest)).filter
            fun x => !(rowKey cols isTest r0 == x))).map
              (mkGRow cols isTest ws (r0 :: rest)) =
          groupRows cols isTest ws (rest.filter fun r =>
            !(rowKey cols isTest r == rowKey cols isTest r0)) := by
        rw [hkeys]
        unfold groupRows
        apply List.map_congr_left
        intro k hk
        unfold mkGRow
        rw [hfibers k hk]
      have hfib0 : (r0 :: rest).filter
            (fun r => rowKey cols isTest r == rowKey cols isTest r0) =
          r0 :: rest.filter (fun r => rowKey cols isTest r == rowKey cols isTest r0) := by
        apply List.filter_cons_of_pos
        exact beq_self_eq_true _
      rw [hstep]
      simp only [List.map_cons]
      rw [sumVals_cons, hhead, htail,
        ih _ (le_trans (List.length_filter_le _ _) hrest),
        hfib0, List.map_cons, sumVals_cons,
        addVals_assoc, sumVals_cons]
      congr 1
      rw [sumVals_map_filter_partition ws.length (rowContrib isTest ws)
        (rowContrib_length isTest ws)
        (fun r => rowKey cols isTest r == rowKey cols isTest r0) rest]

/-- Totals of one executed grouped query: grouping plus folding sums the
raw joined rows' contributions. -/
theorem totals_query (cols : List GroupCol) (isTest : Bool) (ws : List Window)
    (rows : List QRow) :
    totals ws.length (foldRows isTest ws.length (groupRows cols isTest ws rows)) =
      sumVals ws.length (rows.map (rowContrib isTest ws)) := by
  rw [foldRows_totals _ _ _ (groupRows_sums_length cols isTest ws rows)]
  exact groupRows_totals cols isTest ws rows.length rows le_rfl

theorem sumVals_map_flatMap {α β : Type} (n : Nat) (f : β → List StatsValues)
    (hf : ∀ x, (f x).length = n) (g : α → List β) (l : List α) :
    sumVals n ((l.flatMap g).map f) =
      sumVals n (l.map fun x => sumVals n ((g x).map f)) := by
  induction l with
  | nil => rfl
  | cons x rest ih =>
    rw [List.flatMap_cons, List.map_append,
      sumVals_append n _ _ (by
        intro y hy
        rcases List.mem_map.mp hy with ⟨z, _, rfl⟩
        exact hf z),
      ih, List.map_cons, sumVals_cons]

theorem sumVals_map_filter_eq_if {α : Type} (n : Nat) (f : α → List StatsValues)
    (hf : ∀ x, (f x).length = n) (p : α → Bool) (l : List α) :
    sumVals n ((l.filter p).map f) =
      sumVals n (l.map fun x => if p x then f x else zeroVals n) := by
  have hlen_if : ∀ z, (if p z then f z else zeroVals n).length = n := by
    intro z
    by_cases h : p z = true
    · rw [if_pos h]; exact hf z
    · rw [if_neg h]; exact zeroVals_length n
  induction l with
  | nil => rfl
  | cons x rest ih =>
    by_cases hp : p x = true
    · rw [List.filter_cons_of_pos hp, List.map_cons, sumVals_cons, ih, List.map_cons,
        sumVals_cons, if_pos hp]
    · rw [List.filter_cons_of_neg hp, ih, List.map_cons, sumVals_cons, if_neg hp,
        addVals_zero_left n _ (sumVals_length n _ (by
          intro y hy
          rcases List.mem_map.mp hy with ⟨z, _, rfl⟩
          exact hlen_if z))]

theorem sumVals_singleton (n : Nat) (y : List StatsValues) (hy : y.length = n) :
    sumVals n [y] = y := by
  rw [sumVals_cons, sumVals_nil, addVals_zero_right n _ hy]

theorem sumVals_all_zero {α : Type} (n : Nat) (f : α → List StatsValues) (l : List α)
    (hz : ∀ x ∈ l, f x = zeroVals n) : sumVals n (l.map f) = zeroVals n := by
  induction l with
  | nil => rfl
  | cons x rest ih =>
    rw [List.map_cons, sumVals_cons, hz x (List.mem_cons_self _ _),
      ih fun y hy => hz y (List.mem_cons_of_mem _ hy),
      addVals_zero_left n _ (zeroVals_length n)]

/-- Dropping filtered rows whose contribution is zero: restricting a
filter by an extra conjunct `q` preserves the sum when rows failing `q`
contribute nothing. -/
theorem sumVals_filter_restrict {α : Type} (n : Nat) (f : α → List StatsValues)
    (hf : ∀ x, (f x).length = n) (p q : α → Bool) (l : List α)
    (hz : ∀ x ∈ l, p x = true → q x = false → f x = zeroVals n) :
    sumVals n ((l.filter p).map f) = sumVals n ((l.filter fun x => p x && q x).map f) := by
  have hlen : ∀ m : List α, (sumVals n (m.map f)).length = n := by
    intro m
    refine sumVals_length n _ ?_
    intro y hy
    rcases List.mem_map.mp hy with ⟨z, _, rfl⟩
    exact hf z
  induction l with
  | nil => rfl
  | cons x rest ih =>
    have hzr : ∀ y ∈ rest, p y = true → q y = false → f y = zeroVals n :=
      fun y hy => hz y (List.mem_cons_of_mem _ hy)
    by_cases hp : p x = true
    · by_cases hq : q x = true
      · rw [List.filter_cons_of_pos hp,
          List.filter_cons_of_pos (by rw [hp, hq]; rfl),
          List.map_cons, List.map_cons, sumVals_cons, sumVals_cons, ih hzr]
      · have hqf : q x = false := Bool.not_eq_true _ ▸ eq_false_of_ne_true hq
        rw [List.filter_cons_of_pos hp,
          List.filter_cons_of_neg (by rw [hp, hqf, Bool.true_and]; exact Bool.false_ne_true),
          List.map_cons, sumVals_cons, hz x (List.mem_cons_self _ _) hp hqf, ih hzr,
          addVals_zero_left n _ (hlen _)]
    · have hpf : p x = false := eq_false_of_ne_true hp
      rw [List.filter_cons_of_neg hp,
        List.filter_cons_of_neg (by rw [hpf, Bool.false_and]; exact Bool.false_ne_true),
        ih hzr]

/-- C3 counterexample: a build whose "Overall" test result is flaky
(13).  The persist stage stores build status 1, so the build-level query
counts it as pass while the test-pinned query counts it as flake — the
two responses' counts differ. -/
theorem c3_counterexample :
    BuildStats dbFlakyOverall "test" "" "7,7" "Overall" nowFix =
      .ok ⟨[⟨["Overall"], [⟨0, 1, 0⟩, ⟨0, 0, 0⟩]⟩]⟩ ∧
    BuildStats dbFlakyOverall "sippytags" "" "7,7" "" nowFix =
      .ok ⟨[⟨["aws"], [⟨1, 0, 0⟩, ⟨0, 0, 0⟩]⟩]⟩ ∧
    totals 2 ⟨[⟨["Overall"], [⟨0, 1, 0⟩, ⟨0, 0, 0⟩]⟩]⟩ ≠
      totals 2 ⟨[⟨["aws"], [⟨1, 0, 0⟩, ⟨0, 0, 0⟩]⟩]⟩ := by
  refine ⟨by decide, by decide, by decide⟩

/-- C3 (amended): the `columns=test&testname=Overall` pinned query and
the default build-level query return identical total pass/flake/fail
counts per window for every store in which (a) the tests table has a
unique "Overall" row, (b) every build has exactly one "Overall" test
result whose status is pass (1), pass-with-skips (3) or fail (12) and
the stored build status is the one the persist stage derives from it
(2 iff fail), and (c) every job carries exactly one sippy tag.  A flaky
Overall (counted as flake at test level but pass at build level), a
missing Overall result, or a job with zero or several tags breaks the
equality (see the counterexample). -/
theorem c3_overall_pin_roundtrip (db : DB) (periodsS : String) (now : Int)
    (ws : List Window) (cutoff : Int) (oid : Int)
    (hper : parsePeriods now periodsS = .ok (ws, cutoff))
    (hfind : db.tests.find? (fun t => t.name == "Overall") =
      some { id := oid, name := "Overall" })
    (htests : db.tests.filter (fun t => t.id == oid) = [{ id := oid, name := "Overall" }])
    (hov : ∀ b ∈ db.builds, ∃ s : Int,
      db.test_results.filter (fun tr => tr.build_id == b.id && tr.test_id == oid) =
        [{ build_id := b.id, test_id := oid, status := s }] ∧
      (s = 1 ∨ s = 3 ∨ s = 12) ∧ b.status = (if s = 12 then 2 else 1))
    (htag : ∀ j ∈ db.jobs, ∃ g : TagRow,
      db.jobs_sippy_tags.filter (fun g2 => g2.job_id == j.id) = [g]) :
    ∃ s1 s2 : Stats,
      BuildStats db "test" "" periodsS "Overall" now = .ok s1 ∧
      BuildStats db "sippytags" "" periodsS "" now = .ok s2 ∧
      totals ws.length s1 = totals ws.length s2 := by
  have h1 : FindTest db "Overall" = some oid := by
    unfold FindTest
    rw [hfind]
    rfl
  have hA : BuildStats db "test" "" periodsS "Overall" now =
      .ok (foldRows true ws.length (groupRows [GroupCol.test] true ws
        ((joinTestRows db (joinTestResultRows db (baseRows db))).filter fun r =>
          (match r.tr with
            | some tr => tr.test_id == oid
            | none => false) && decide (cutoff ≤ r.b.timestamp)))) := by
    unfold BuildStats buildStatsAfterFilter
    rw [show parseColumns (splitGo ',' "test") = Except.ok [GroupCol.test] from rfl, h1]
    unfold buildStatsRun
    rw [hper]
    rfl
  have hB : BuildStats db "sippytags" "" periodsS "" now =
      .ok (foldRows false ws.length (groupRows [GroupCol.sippytags] false ws
        ((joinTagRows db (baseRows db)).filter fun r =>
          decide (cutoff ≤ r.b.timestamp)))) := by
    unfold BuildStats buildStatsAfterFilter
    rw [show parseColumns (splitGo ',' "sippytags") = Except.ok [GroupCol.sippytags] from rfl]
    unfold buildStatsRun
    rw [hper]
    rfl
  refine ⟨_, _, hA, hB, ?_⟩
  rw [totals_query, totals_query]
  -- names for the two leaf functions
  set n := ws.length with hn
  -- A side: filter → if
  rw [sumVals_map_filter_eq_if n (rowContrib true ws) (rowContrib_length true ws)]
  rw [sumVals_map_filter_eq_if n (rowContrib false ws) (rowContrib_length false ws)]
  have hFA : ∀ r : QRow,
      ((if ((match r.tr with
          | some tr => tr.test_id == oid
          | none => false) && decide (cutoff ≤ r.b.timestamp)) then rowContrib true ws r
        else zeroVals n) : List StatsValues).length = n := by
    intro r
    by_cases h : ((match r.tr with
        | some tr => tr.test_id == oid
        | none => false) && decide (cutoff ≤ r.b.timestamp)) = true
    · rw [if_pos h]; exact rowContrib_length true ws r
    · rw [if_neg h]; exact zeroVals_length n
  have hFB : ∀ r : QRow,
      ((if decide (cutoff ≤ r.b.timestamp) then rowContrib false ws r
        else zeroVals n) : List StatsValues).length = n := by
    intro r
    by_cases h : decide (cutoff ≤ r.b.timestamp) = true
    · rw [if_pos h]; exact rowContrib_length false ws r
    · rw [if_neg h]; exact zeroVals_length n
  simp only [joinTestRows, joinTestResultRows, joinTagRows]
  rw [sumVals_map_flatMap n _ hFA]
  rw [sumVals_map_flatMap n _ hFB]
  rw [sumVals_map_flatMap n _ (fun r => sumVals_length n _ (by
    intro y hy
    rcases List.mem_map.mp hy with ⟨z, _, rfl⟩
    exact hFA z))]
  refine congrArg (sumVals n) (List.map_congr_left ?_)
  intro x hx
  unfold baseRows at hx
  rcases List.mem_flatMap.mp hx with ⟨b, hbmem, hx2⟩
  rcases List.mem_map.mp hx2 with ⟨j, hjf, rfl⟩
  have hjmem : j ∈ db.jobs := List.mem_of_mem_filter hjf
  dsimp only
  rw [List.map_map, List.map_map]
  simp only [Function.comp_def]
  obtain ⟨s, htr, hs, hbs⟩ := hov b hbmem
  obtain ⟨g0, htg⟩ := htag j hjmem
  rw [sumVals_filter_restrict n _
    (fun tr => sumVals_length n _ (by
      intro y hy
      rcases List.mem_map.mp hy with ⟨z, _, rfl⟩
      exact hFA z))
    (fun tr => tr.build_id == b.id) (fun tr => tr.test_id == oid) db.test_results
    ?hz]
  case hz =>
    intro tr _ _ hq
    apply sumVals_all_zero
    intro y hy
    rcases List.mem_map.mp hy with ⟨t, _, rfl⟩
    simp [hq]
  rw [htr, htg]
  simp only [List.map_cons, List.map_nil]
  rw [sumVals_singleton n _ (sumVals_length n _ (by
    intro y hy
    rcases List.mem_map.mp hy with ⟨z, _, rfl⟩
    exact hFA z))]
  rw [sumVals_singleton n _ (by
    by_cases h : decide (cutoff ≤ b.timestamp) = true
    · rw [if_pos h]; exact rowContrib_length false ws _
    · rw [if_neg h]; exact zeroVals_length n)]
  dsimp only
  rw [htests]
  simp only [List.map_cons, List.map_nil]
  rw [sumVals_singleton n _ (by
    by_cases h : (((oid : Int) == oid) && decide (cutoff ≤ b.timestamp)) = true
    · rw [if_pos h]; exact rowContrib_length true ws _
    · rw [if_neg h]; exact zeroVals_length n)]
  simp only [beq_self_eq_true, Bool.true_and]
  by_cases hcut : cutoff ≤ b.timestamp
  · rw [if_pos (decide_eq_true hcut), if_pos (decide_eq_true hcut)]
    unfold rowContrib
    dsimp only [rowStatus]
    rw [hbs]
    rcases hs with rfl | rfl | rfl <;> rfl
  · rw [if_neg (by simpa using hcut), if_neg (by simpa using hcut)]

/-- C3 witness for the amended theorem. -/
theorem c3_overall_pin_roundtrip_witness :
    ∃ s1 s2 : Stats,
      BuildStats dbOverallFail "test" "" "7,7" "Overall" nowFix = .ok s1 ∧
      BuildStats dbOverallFail "sippytags" "" "7,7" "" nowFix = .ok s2 ∧
      totals 2 s1 = totals 2 s2 := by
  have h := c3_overall_pin_roundtrip dbOverallFail "7,7" nowFix
    [⟨8035200000, none⟩, ⟨7430400000, some 8035200000⟩] 7430400000 7
    rfl rfl rfl
    (fun b hb => by
      rcases List.mem_singleton.mp hb with rfl
      exact ⟨12, by decide, by decide, by decide⟩)
    (fun j hj => by
      rcases List.mem_singleton.mp hj with rfl
      exact ⟨⟨1, "aws"⟩, by decide⟩)
  exact h

end CIResults
